import Mathlib

/-!
Verification of the spsock TCP/UDP server runtime (HSLL175848494/spsock).

Shallow embedding of the core data structures and handlers:
  * `SPBuffer`       — the per-connection ring buffer (src/SPBuffer.cpp)
  * `SOCKController` — the connection controller drain/fill algorithms
                       (src/SPController.cpp), over an explicit socket model
  * `SPSockTcp`      — the reactor's event handlers `HandleRead`/`HandleWrite`
                       (src/SPSock.cpp) and the epoll registration masks
  * `UtilTaskTcp`    — the batched worker-dispatch staging buffer (src/SPTask.hpp)
  * `SPUdpBufferPool`— the slab buffer pool (src/SPBufferPool.hpp)

Machine integers of the source are modelled as `Nat`/`Int` with explicit
wrap-around (`% bsize`) where the source relies on it; byte memory is a
`List Nat`; fallible syscalls are driven by explicit result lists.
-/

namespace Spsock

/-- The ring buffer of src/SPBuffer.cpp.  `buffer` is the backing memory
(length `bsize`), `back` the read index, `front` the write index, `size`
the live byte count. -/
structure SPBuffer where
  buffer : List Nat
  back : Nat
  front : Nat
  size : Nat
  bsize : Nat
deriving Repr, DecidableEq

namespace SPBuffer

/-- A fresh ring of capacity `cap`: indices and live count zero
(`SPBuffer::SPBuffer` + `Init`, src/SPBuffer.cpp:5-17). -/
def init (cap : Nat) : SPBuffer :=
  { buffer := List.replicate cap 0, back := 0, front := 0, size := 0, bsize := cap }

/-- `SPBuffer::bytesRead` (src/SPBuffer.cpp:19-22): live byte count. -/
def bytesRead (b : SPBuffer) : Nat := b.size

/-- `SPBuffer::bytesWrite` (src/SPBuffer.cpp:24-27): free space. -/
def bytesWrite (b : SPBuffer) : Nat := b.bsize - b.size

/-- `SPBuffer::distanceWrite` (src/SPBuffer.cpp:29-34): contiguous free span
from `front`. -/
def distanceWrite (b : SPBuffer) : Nat :=
  min (b.bsize - b.front) b.bytesWrite

/-- `SPBuffer::distanceRead` (src/SPBuffer.cpp:36-41): contiguous live span
from `back`. -/
def distanceRead (b : SPBuffer) : Nat :=
  min (b.bsize - b.back) b.bytesRead

/-- `SPBuffer::commitRead` (src/SPBuffer.cpp:43-47): advance the read index,
shrink the live count.  (The source performs no index reset here.) -/
def commitRead (b : SPBuffer) (len : Nat) : SPBuffer :=
  { b with back := (b.back + len) % b.bsize, size := b.size - len }

/-- `SPBuffer::commitWrite` (src/SPBuffer.cpp:49-55): advance the write index,
grow the live count; if the resulting live count is zero both indices reset. -/
def commitWrite (b : SPBuffer) (len : Nat) : SPBuffer :=
  let f := (b.front + len) % b.bsize
  let s := b.size + len
  if s = 0 then { b with front := 0, back := 0, size := 0 }
  else { b with front := f, size := s }

/-- `memcpy(dest + pos, src, src.length)` on list-modelled memory; used
in-bounds only (`pos + src.length ≤ dest.length`). -/
def memcpyList (dest : List Nat) (pos : Nat) (src : List Nat) : List Nat :=
  dest.take pos ++ (src ++ dest.drop (pos + src.length))

/-- `SPBuffer::read` (src/SPBuffer.cpp:67-90): copy up to `len` live bytes
out; returns the bytes copied and the new state.  Resets both indices when
the buffer drains to empty. -/
def read (b : SPBuffer) (len : Nat) : List Nat × SPBuffer :=
  if len = 0 ∨ b.size = 0 then ([], b)
  else
    let bytesToRead := if len > b.size then b.size else len
    let firstChunk := if b.back + bytesToRead > b.bsize then b.bsize - b.back else bytesToRead
    let out := (b.buffer.drop b.back).take firstChunk ++ b.buffer.take (bytesToRead - firstChunk)
    if b.size - bytesToRead = 0 then
      (out, { b with size := 0, front := 0, back := 0 })
    else
      (out, { b with size := b.size - bytesToRead, back := (b.back + bytesToRead) % b.bsize })

/-- `SPBuffer::peek` (src/SPBuffer.cpp:92-105): like `read` but the state is
unchanged. -/
def peek (b : SPBuffer) (len : Nat) : List Nat :=
  if len = 0 ∨ b.size = 0 then []
  else
    let bytesToRead := if len > b.size then b.size else len
    let firstChunk := if b.back + bytesToRead > b.bsize then b.bsize - b.back else bytesToRead
    (b.buffer.drop b.back).take firstChunk ++ b.buffer.take (bytesToRead - firstChunk)

/-- `SPBuffer::write` (src/SPBuffer.cpp:107-122): copy up to
`min data.length bytesWrite` bytes in at `front` (wrapping once); returns the
count copied and the new state. -/
def write (b : SPBuffer) (data : List Nat) : Nat × SPBuffer :=
  if data.length = 0 ∨ b.bytesWrite = 0 then (0, b)
  else
    let bytesToWrite := if data.length > b.bytesWrite then b.bytesWrite else data.length
    let firstChunk := if b.front + bytesToWrite > b.bsize then b.bsize - b.front else bytesToWrite
    let buf1 := memcpyList b.buffer b.front (data.take firstChunk)
    let buf2 := if firstChunk < bytesToWrite
      then memcpyList buf1 0 ((data.take bytesToWrite).drop firstChunk)
      else buf1
    (bytesToWrite,
     { b with buffer := buf2, front := (b.front + bytesToWrite) % b.bsize,
              size := b.size + bytesToWrite })

/-- Well-formedness of a ring state: positive capacity, backing memory of
exactly that length, indices in range, and the write index determined by the
read index and the live count. -/
def wf (b : SPBuffer) : Prop :=
  0 < b.bsize ∧ b.buffer.length = b.bsize ∧ b.back < b.bsize ∧
    b.size ≤ b.bsize ∧ b.front = (b.back + b.size) % b.bsize

instance (b : SPBuffer) : Decidable b.wf := by
  unfold wf; infer_instance

/-- The live bytes of the ring, in FIFO order: positions
`back, back+1, …, back+size-1` modulo `bsize`. -/
def contents (b : SPBuffer) : List Nat :=
  (List.range b.size).map (fun i => b.buffer.getD ((b.back + i) % b.bsize) 0)

end SPBuffer

/-- One step of an interleaving against the ring: `copyIn data` is
`SPBuffer::write` (the spec's `copy_in`), `copyOut len` is `SPBuffer::read`
(the spec's `copy_out`). -/
inductive RingOp where
  | copyIn (data : List Nat)
  | copyOut (len : Nat)
deriving Repr, DecidableEq

/-- Run a sequence of ring operations from state `b`; returns the
concatenation of all bytes returned by the reads, and the final state. -/
def runOps (b : SPBuffer) : List RingOp → List Nat × SPBuffer
  | [] => ([], b)
  | RingOp.copyIn data :: rest => runOps (b.write data).2 rest
  | RingOp.copyOut len :: rest =>
      let r := b.read len
      let rr := runOps r.2 rest
      (r.1 ++ rr.1, rr.2)

/-- The round-trip side condition: each `copyIn` fits into the current free
space, i.e. the cumulative unread input never exceeds the capacity. -/
def opsFit (b : SPBuffer) : List RingOp → Bool
  | [] => true
  | RingOp.copyIn data :: rest =>
      decide (data.length + b.size ≤ b.bsize) && opsFit (b.write data).2 rest
  | RingOp.copyOut len :: rest => opsFit (b.read len).2 rest

/-- The byte string `S` of the round-trip property: the concatenation of all
`copyIn` chunks. -/
def inputsOf : List RingOp → List Nat
  | [] => []
  | RingOp.copyIn data :: rest => data ++ inputsOf rest
  | RingOp.copyOut _ :: rest => inputsOf rest

/-- Result of one `send`/`recv` syscall in the socket model: `sent n` means
the kernel transfers `min n len` bytes of the requested `len` (`sent 0` is
EOF for `recv`); `eintr`/`eagain` are the transient errnos; `epipe` and
`econnreset` are the peer-hangup errnos; `err` is any other errno. -/
inductive SysResult where
  | sent (n : Nat)
  | eintr
  | eagain
  | epipe
  | econnreset
  | err
deriving Repr, DecidableEq

namespace SOCKController

/-- The send loop of `SOCKController::commitWrite` (src/SPController.cpp:123-142)
with `writeInner` (src/SPController.cpp:40-54) inlined against the socket
model: each loop iteration checks `distanceRead` first; `writeInner` retries
`EINTR` transparently, maps `EAGAIN` to 0 and every other errno — including
`EPIPE`/`ECONNRESET` — to -1.  An exhausted model list behaves as a
would-block socket (`writeInner` returns 0). -/
def commitWriteLoop : SPBuffer → List SysResult → Int × SPBuffer
  | b, [] =>
      if b.distanceRead = 0 then (0, b) else ((b.bytesRead : Int), b)
  | b, SysResult.eintr :: rest =>
      if b.distanceRead = 0 then (0, b) else commitWriteLoop b rest
  | b, SysResult.sent n :: rest =>
      if b.distanceRead = 0 then (0, b)
      else
        let len := b.distanceRead
        let bytes := min n len
        if bytes = 0 then ((b.bytesRead : Int), b)
        else
          let b' := b.commitRead bytes
          if bytes < len then ((b'.bytesRead : Int), b') else commitWriteLoop b' rest
  | b, SysResult.eagain :: _ =>
      if b.distanceRead = 0 then (0, b) else ((b.bytesRead : Int), b)
  | b, SysResult.epipe :: _ =>
      if b.distanceRead = 0 then (0, b) else (-1, b)
  | b, SysResult.econnreset :: _ =>
      if b.distanceRead = 0 then (0, b) else (-1, b)
  | b, SysResult.err :: _ =>
      if b.distanceRead = 0 then (0, b) else (-1, b)

/-- The drain loop of `SOCKController::readSocket` (src/SPController.cpp:56-75)
with `readInner` (src/SPController.cpp:24-38) inlined: `EINTR` retried,
`EAGAIN` mapped to 0 (like EOF, a successful return), any other errno a
failure.  Only the ring indices matter here, so a successful `recv` of
`bytes` is `commitWrite bytes` on the read ring. -/
def readSocketLoop : SPBuffer → List SysResult → Bool × SPBuffer
  | b, [] => (true, b)
  | b, SysResult.eintr :: rest =>
      if b.distanceWrite = 0 then (true, b) else readSocketLoop b rest
  | b, SysResult.sent n :: rest =>
      if b.distanceWrite = 0 then (true, b)
      else
        let len := b.distanceWrite
        let bytes := min n len
        if bytes = 0 then (true, b)
        else
          let b' := b.commitWrite bytes
          if bytes < len then (true, b') else readSocketLoop b' rest
  | b, SysResult.eagain :: _ => (true, b)
  | b, SysResult.epipe :: _ =>
      if b.distanceWrite = 0 then (true, b) else (false, b)
  | b, SysResult.econnreset :: _ =>
      if b.distanceWrite = 0 then (true, b) else (false, b)
  | b, SysResult.err :: _ =>
      if b.distanceWrite = 0 then (true, b) else (false, b)

/-- `SOCKController::write` (src/SPController.cpp:97-116): the direct send
path.  Unlike `writeInner`, it maps `EPIPE`/`ECONNRESET` to -2 and latches
`peerClosed` (the returned Bool). -/
def writeDirect (len : Nat) : List SysResult → Int × Bool
  | [] => (0, false)
  | SysResult.sent n :: _ => ((min n len : Int), false)
  | SysResult.eintr :: rest => writeDirect len rest
  | SysResult.eagain :: _ => (0, false)
  | SysResult.epipe :: _ => (-2, true)
  | SysResult.econnreset :: _ => (-2, true)
  | SysResult.err :: _ => (-1, false)

end SOCKController

/-- Epoll event-mask bits (Linux values used by src/SPSock.cpp). -/
def EPOLLIN : Nat := 0x001

def EPOLLOUT : Nat := 0x004

def EPOLLERR : Nat := 0x008

def EPOLLHUP : Nat := 0x010

def EPOLLRDHUP : Nat := 0x2000

def EPOLLONESHOT : Nat := 0x40000000

/-- `SPWaterMark` (src/SPTypes.h:91-95): the two global watermarks. -/
structure SPWaterMark where
  readMark : Nat
  writeMark : Nat
deriving Repr, DecidableEq

/-- The connection controller state the event handlers touch: the two rings,
the `peerClosed` latch and the cached `events` interest mask
(src/SPController.h / src/SPController.cpp). -/
structure SOCKController where
  readBuf : SPBuffer
  writeBuf : SPBuffer
  peerClosed : Bool
  events : Nat
deriving Repr, DecidableEq

namespace SOCKController

/-- `SOCKController::isPeerClosed` (src/SPController.cpp:82-85). -/
def isPeerClosed (c : SOCKController) : Bool := c.peerClosed

/-- `SOCKController::getReadBufferSize` (src/SPController.cpp:144-147). -/
def getReadBufferSize (c : SOCKController) : Nat := c.readBuf.bytesRead

/-- `SOCKController::getWriteBufferSize` (src/SPController.cpp:149-152). -/
def getWriteBufferSize (c : SOCKController) : Nat := c.writeBuf.bytesRead

/-- `SOCKController::readSocket` on the controller (drains the socket into
the read ring). -/
def readSocket (c : SOCKController) (s : List SysResult) : Bool × SOCKController :=
  let r := readSocketLoop c.readBuf s
  (r.1, { c with readBuf := r.2 })

/-- `SOCKController::commitWrite` on the controller (drains the write ring
to the socket). -/
def commitWrite (c : SOCKController) (s : List SysResult) : Int × SOCKController :=
  let r := commitWriteLoop c.writeBuf s
  (r.1, { c with writeBuf := r.2 })

/-- `SOCKController::enableEvents` (src/SPController.cpp:224-237): calls
`DEFER::funcEvent` (= `SPSockTcp::EnableEvent`, whose result is exactly the
success of `epoll_ctl(MOD)`, modelled by `epollOk`); clears `events`, then
on success sets the requested bits. -/
def enableEvents (c : SOCKController) (rd wr : Bool) (epollOk : Bool) :
    Bool × SOCKController :=
  let ret := epollOk
  let ev := if ret then (if rd then EPOLLIN else 0) ||| (if wr then EPOLLOUT else 0) else 0
  (ret, { c with events := ev })

/-- `SOCKController::renableEvents` (src/SPController.cpp:239-245): re-arm
with the cached mask; on failure clear `events`. -/
def renableEvents (c : SOCKController) (epollOk : Bool) : Bool × SOCKController :=
  let ret := epollOk
  if ret then (ret, c) else (ret, { c with events := 0 })

end SOCKController

namespace SPSockTcp

/-- The epoll mask built by `SPSockTcp::EnableEvent` (src/SPSock.cpp:183-199):
always `EPOLLERR|EPOLLRDHUP|EPOLLHUP|EPOLLONESHOT`, plus `EPOLLIN`/`EPOLLOUT`
as requested. -/
def EnableEvent_mask (rd wr : Bool) : Nat :=
  let base := EPOLLERR ||| EPOLLRDHUP ||| EPOLLHUP ||| EPOLLONESHOT
  let m1 := if rd then base ||| EPOLLIN else base
  if wr then m1 ||| EPOLLOUT else m1

/-- The epoll mask `SPSockTcp::HandleConnect` registers a fresh connection
with (src/SPSock.cpp:147-149): error bits, `EPOLLONESHOT` and the configured
default events. -/
def HandleConnect_mask (defaultEvent : Nat) : Nat :=
  EPOLLERR ||| EPOLLHUP ||| EPOLLRDHUP ||| EPOLLONESHOT ||| defaultEvent

/-- The watermark assignment of `SPSockTcp::Config` (src/SPSock.cpp:468):
`markGlobal = {0, 0}`. -/
def Config_markGlobal : SPWaterMark := ⟨0, 0⟩

/-- Outcome of one `HandleRead`/`HandleWrite` invocation: `keepOpen` is the
C++ return value (`false` → the caller runs `ActiveClose`, scheduling the
connection for close, src/SPSock.cpp:411-419); `staged` records whether
`utilTask->append` was called; `rearmed` records whether a *successful*
`enableEvents`/`renableEvents` happened in the handler's own branches.
(`append` itself may additionally re-arm through `renableProc` when the
staging failure latch is set — that behaviour is modelled separately by
`UtilTaskTcp_Single.append`/`UtilTaskTcp_Multipe.append`.) -/
structure HandleResult where
  keepOpen : Bool
  conn : SOCKController
  staged : Bool
  rearmed : Bool
deriving Repr, DecidableEq

/-- `SPSockTcp::HandleRead` (src/SPSock.cpp:567-604).  `rdp`/`wtp` model
`proc.rdp`/`proc.wtp` being non-null; `recvRes` drives `readSocket`;
`epollOk` is the success of the (at most one) `epoll_ctl(MOD)` call. -/
def HandleRead : Bool → Bool → SPWaterMark → SOCKController →
    List SysResult → Bool → HandleResult
  | true, _, mark, c, recvRes, epollOk =>
    let d := c.readSocket recvRes
    if d.1 = false then ⟨false, d.2, false, false⟩
    else if d.2.isPeerClosed ∧ d.2.getReadBufferSize = 0 then ⟨false, d.2, false, false⟩
    else if mark.readMark = 0 then ⟨true, d.2, true, false⟩
    else if d.2.getReadBufferSize ≥ mark.readMark then ⟨true, d.2, true, false⟩
    else
      let e := d.2.renableEvents epollOk
      if e.1 then ⟨true, e.2, false, true⟩ else ⟨false, e.2, false, false⟩
  | false, true, _, c, _, epollOk =>
    -- degenerate branch (src/SPSock.cpp:594-597):
    -- `if (controller->enableEvents(false, true)) return false;`
    let e := c.enableEvents false true epollOk
    if e.1 then ⟨false, e.2, false, true⟩ else ⟨true, e.2, false, false⟩
  | false, false, _, c, _, _ => ⟨false, c, false, false⟩

/-- `SPSockTcp::HandleWrite` (src/SPSock.cpp:606-643). -/
def HandleWrite : Bool → Bool → SPWaterMark → SOCKController →
    List SysResult → Bool → HandleResult
  | rdp, false, _, c, _, epollOk =>
    if rdp then
      -- degenerate branch (src/SPSock.cpp:633-636):
      -- `if (controller->enableEvents(true, false)) return false;`
      let e := c.enableEvents true false epollOk
      if e.1 then ⟨false, e.2, false, true⟩ else ⟨true, e.2, false, false⟩
    else ⟨false, c, false, false⟩
  | _, true, mark, c, sendRes, epollOk =>
    if c.isPeerClosed ∧ c.getReadBufferSize = 0 then ⟨false, c, false, false⟩
    else if mark.writeMark = 0xffffffff then ⟨true, c, true, false⟩
    else
      let r := c.commitWrite sendRes
      if r.1 = -1 then ⟨false, r.2, false, false⟩
      else if r.2.getWriteBufferSize ≤ mark.writeMark then ⟨true, r.2, true, false⟩
      else
        let e := r.2.renableEvents epollOk
        if e.1 then ⟨true, e.2, false, true⟩ else ⟨false, e.2, false, false⟩

/-- The `EPOLLIN | EPOLLRDHUP` dispatch arm of `SPSockTcp::IOEventLoop`
(src/SPSock.cpp:404-413): latch `peerClosed` when the event carries
`EPOLLRDHUP`, then run `HandleRead`. -/
def dispatchReadEvent (evts : Nat) (rdp wtp : Bool) (mark : SPWaterMark)
    (c : SOCKController) (recvRes : List SysResult) (epollOk : Bool) : HandleResult :=
  let c0 := if evts &&& EPOLLRDHUP ≠ 0 then { c with peerClosed := true } else c
  HandleRead rdp wtp mark c0 recvRes epollOk

end SPSockTcp

/-- Abstract scheduling state of one connection under the reactor:
`armed` — the fd is registered in an epoll set with a one-shot mask (every
registration carries `EPOLLONESHOT`: `SPSockTcp::HandleConnect_mask` and
`SPSockTcp::EnableEvent_mask`); `inflight` — the number of worker tasks
referencing the connection that are staged or running. -/
structure ConnSched where
  armed : Bool
  inflight : Nat
deriving Repr, DecidableEq

/-- The transitions the reactor can take for one connection.  A readiness
delivery requires `armed = true` and, by one-shot semantics, disarms the fd;
the handler (`HandleRead`/`HandleWrite`) then either stages exactly one task
without re-arming (`deliverStage` — the `utilTask->append` branches with the
staging failure latch clear), re-arms without staging (`deliverRearm` — the
watermark-unsatisfied and degenerate branches, and a failed push's
`renableProc` fallback), stages *and* re-arms (`deliverStageRearm` — the
`append` latch path, src/SPTask.hpp:59-68 and 98-107: `if (!flag)
renableProc(ctx);` followed by staging the task anyway, with no early
return), or schedules close (`deliverClose`).  A running task completes by
re-arming (`enable_events`/`renable_events`) or by closing. -/
inductive ConnStep : ConnSched → ConnSched → Prop
  | deliverStage {n : Nat} : ConnStep ⟨true, n⟩ ⟨false, n + 1⟩
  | deliverStageRearm {n : Nat} : ConnStep ⟨true, n⟩ ⟨true, n + 1⟩
  | deliverRearm {n : Nat} : ConnStep ⟨true, n⟩ ⟨true, n⟩
  | deliverClose {n : Nat} : ConnStep ⟨true, n⟩ ⟨false, n⟩
  | completeRearm {a : Bool} {n : Nat} : ConnStep ⟨a, n + 1⟩ ⟨true, n⟩
  | completeClose {a : Bool} {n : Nat} : ConnStep ⟨a, n + 1⟩ ⟨false, n⟩

/-- States reachable from a fresh connection: registered and armed
(`HandleConnect` registers with the one-shot default mask), no task in
flight. -/
def ConnReachable (s : ConnSched) : Prop :=
  Relation.ReflTransGen ConnStep ⟨true, 0⟩ s

/-- The staging buffer of `UtilTaskTcp_Multipe` (src/SPTask.hpp:76-152).
`tasks` models the circular array by each staged task's connection identity
(the `ctx` pointer); its length is the configured
`THREADPOOL_BATCH_SIZE_SUBMIT`. -/
structure UtilTaskTcp_Multipe where
  flag : Bool
  back : Nat
  front : Nat
  size : Nat
  tasks : List Nat
deriving Repr, DecidableEq

/-- Log of a `commit` run: connection ids of the tasks handed to the pool
(in submission order) and of the connections re-armed through `renableProc`. -/
structure CommitLog where
  submitted : List Nat
  rearmed : List Nat
deriving Repr, DecidableEq

namespace UtilTaskTcp_Multipe

/-- The staged batch: the connection ids currently in the circular buffer,
oldest first. -/
def staged (batchSize : Nat) (st : UtilTaskTcp_Multipe) : List Nat :=
  (List.range st.size).map (fun i => st.tasks.getD ((st.back + i) % batchSize) 0)

/-- `UtilTaskTcp_Multipe::commit` (src/SPTask.hpp:114-151) against an
explicit pool-acceptance model: `accepts` holds, per `append`/`append_bulk`
call, how many tasks the queue takes (clamped to the request `num`); an
exhausted list models a persistently full queue (0 accepted).  On a partial
submission the code re-arms `num - submitted` tasks starting at
`back + submitted`, then sets `back = front; size = 0; flag = false` and
returns.  On a fully accepted chunk it advances and recurses while tasks
remain.  (The `num = 0` guard in the exhausted case cuts the loop that the
C++ would spin in from the unreachable `back ≥ batchSize` states.) -/
def commit (batchSize : Nat) :
    List Nat → UtilTaskTcp_Multipe → CommitLog → UtilTaskTcp_Multipe × CommitLog
  | [], st, log =>
      if st.size = 0 then (st, log)
      else
        let distance := batchSize - st.back
        let num := min distance st.size
        if num = 0 then (st, log)
        else
          let rearmedCtxs := (List.range num).map
            (fun i => st.tasks.getD ((st.back + i) % batchSize) 0)
          ({ st with back := st.front, size := 0, flag := false },
           { log with rearmed := log.rearmed ++ rearmedCtxs })
  | a :: rest, st, log =>
      if st.size = 0 then (st, log)
      else
        let distance := batchSize - st.back
        let num := min distance st.size
        let submitted := min a num
        let log1 := { log with submitted := log.submitted ++
          (List.range submitted).map (fun i => st.tasks.getD (st.back + i) 0) }
        if submitted ≠ num then
          let rearmedCtxs := (List.range (num - submitted)).map
            (fun i => st.tasks.getD ((st.back + submitted + i) % batchSize) 0)
          ({ st with back := st.front, size := 0, flag := false },
           { log1 with rearmed := log1.rearmed ++ rearmedCtxs })
        else
          let st1 := { st with size := st.size - num, back := (st.back + num) % batchSize }
          if st1.size = 0 then (st1, log1) else commit batchSize rest st1 log1

/-- `UtilTaskTcp_Multipe::append` (src/SPTask.hpp:96-108): when the failure
latch is set it calls `renableProc(ctx)` — re-arming the connection — and
then *still* stages the task into the circular buffer (there is no early
return); a full buffer triggers `commit`. -/
def append (batchSize : Nat) (accepts : List Nat) (st : UtilTaskTcp_Multipe)
    (ctx : Nat) : UtilTaskTcp_Multipe × CommitLog :=
  let log0 : CommitLog := ⟨[], if st.flag = false then [ctx] else []⟩
  let st1 := { st with tasks := st.tasks.set st.front ctx,
                       front := (st.front + 1) % batchSize,
                       size := st.size + 1 }
  if st1.size = batchSize then commit batchSize accepts st1 log0 else (st1, log0)

end UtilTaskTcp_Multipe

/-- `UtilTaskTcp_Single` (src/SPTask.hpp:46-70): the single-submission
utility; `flag` is the failure latch, reset to `true` by `reset()` at the
end of each poll iteration. -/
structure UtilTaskTcp_Single where
  flag : Bool
deriving Repr, DecidableEq

/-- `UtilTaskTcp_Single::append` (src/SPTask.hpp:57-69) over the pool model
(`accept` = whether `pool->append` takes the task): when the failure latch
is already set the code calls `renableProc(ctx)` — re-arming the connection
— and then *still* constructs and pushes the task (there is no early
return); on push failure it sets the latch and re-arms (a second time). -/
def UtilTaskTcp_Single.append (st : UtilTaskTcp_Single) (ctx : Nat)
    (accept : Bool) : UtilTaskTcp_Single × CommitLog :=
  let rearmed0 : List Nat := if st.flag = false then [ctx] else []
  if accept then
    (st, { submitted := [ctx], rearmed := rearmed0 })
  else
    ({ flag := false }, { submitted := [], rearmed := rearmed0 ++ [ctx] })

/-- One slab of `SPUdpBufferPool` (src/SPBufferPool.hpp:267-290): allocation
header refcount initialised to the buffer count `num`. -/
structure Slab where
  id : Nat
  total : Nat
  refCount : Nat
deriving Repr, DecidableEq

/-- State of the UDP buffer pool (src/SPBufferPool.hpp:251-385).  `slabs`
are the live (not yet freed) slabs; `freeList` holds the slab id of each
node on the free list (LIFO); `bufferSize` is the pool's counter;
`checkedOut` (ghost) the slab ids of handed-out buffers; `freed` (ghost) the
ids of freed slabs. -/
structure SPUdpBufferPool where
  slabs : List Slab
  freeList : List Nat
  bufferSize : Nat
  checkedOut : List Nat
  freed : List Nat
  nextId : Nat
deriving Repr, DecidableEq

/-- The empty pool (`SPUdpBufferPool()` constructor). -/
def SPUdpBufferPool.empty : SPUdpBufferPool := ⟨[], [], 0, [], [], 0⟩

/-- The number of a slab's buffers currently *not* on the pool's free list
(the quantity named by the specification's refcount invariant). -/
def SPUdpBufferPool.notOnFreeList (s : SPUdpBufferPool) (sl : Slab) : Nat :=
  sl.total - s.freeList.count sl.id

/-- The specification's claimed invariant, verbatim: every live slab's
reference count equals the number of its buffers not on the free list. -/
def SPUdpBufferPool.claimedRefInv (s : SPUdpBufferPool) : Prop :=
  ∀ sl ∈ s.slabs, sl.refCount = s.notOnFreeList sl

instance (s : SPUdpBufferPool) : Decidable s.claimedRefInv := by
  unfold SPUdpBufferPool.claimedRefInv; infer_instance

/-- The pool's operations as a step relation, translated from
src/SPBufferPool.hpp.
* `alloc` — `tryAlloc(num)` (lines 267-290): a fresh slab with header
  refcount `num`, all `num` buffers pushed onto the free list (`Alloc`'s
  backoff only varies `num ≥ 1`).
* `get` — `GetBuffer` (lines 334-347): pop the free-list head.
* `freeRetain` — `FreeBuffer` (lines 354-372), `bufferSize < MIN_BLOCK_NUM`
  branch: push the buffer back, refcount untouched.
* `freeRetire` — `FreeBuffer`, retention branch, `--refCount` leaves it
  nonzero: the buffer is retired, the slab stays.
* `freeRelease` — `FreeBuffer`, retention branch, `--refCount` reaches zero:
  `free(nodePtr[0])`, the slab is removed. -/
inductive PoolStep (minBlockNum : Nat) : SPUdpBufferPool → SPUdpBufferPool → Prop
  | alloc (s : SPUdpBufferPool) (num : Nat) (hnum : 0 < num) :
      PoolStep minBlockNum s
        { slabs := ⟨s.nextId, num, num⟩ :: s.slabs,
          freeList := List.replicate num s.nextId ++ s.freeList,
          bufferSize := s.bufferSize + num,
          checkedOut := s.checkedOut, freed := s.freed, nextId := s.nextId + 1 }
  | get (s : SPUdpBufferPool) (i : Nat) (rest : List Nat) (h : s.freeList = i :: rest) :
      PoolStep minBlockNum s
        { s with freeList := rest, bufferSize := s.bufferSize - 1,
                 checkedOut := i :: s.checkedOut }
  | freeRetain (s : SPUdpBufferPool) (i : Nat) (pre post : List Nat)
      (h : s.checkedOut = pre ++ i :: post) (hlt : s.bufferSize < minBlockNum) :
      PoolStep minBlockNum s
        { s with checkedOut := pre ++ post, freeList := i :: s.freeList,
                 bufferSize := s.bufferSize + 1 }
  | freeRetire (s : SPUdpBufferPool) (i : Nat) (pre post : List Nat) (sl : Slab)
      (spre spost : List Slab) (h : s.checkedOut = pre ++ i :: post)
      (hge : minBlockNum ≤ s.bufferSize) (hsl : s.slabs = spre ++ sl :: spost)
      (hid : sl.id = i) (hpos : sl.refCount ≠ 1) :
      PoolStep minBlockNum s
        { s with checkedOut := pre ++ post,
                 slabs := spre ++ { sl with refCount := sl.refCount - 1 } :: spost }
  | freeRelease (s : SPUdpBufferPool) (i : Nat) (pre post : List Nat) (sl : Slab)
      (spre spost : List Slab) (h : s.checkedOut = pre ++ i :: post)
      (hge : minBlockNum ≤ s.bufferSize) (hsl : s.slabs = spre ++ sl :: spost)
      (hid : sl.id = i) (hone : sl.refCount = 1) :
      PoolStep minBlockNum s
        { s with checkedOut := pre ++ post, slabs := spre ++ spost,
                 freed := i :: s.freed }

/-- Pool states reachable from the empty pool by any sequence of slab
allocations, buffer acquisitions and buffer releases. -/
def PoolReachable (minBlockNum : Nat) (s : SPUdpBufferPool) : Prop :=
  Relation.ReflTransGen (PoolStep minBlockNum) SPUdpBufferPool.empty s

/-- Shutdown-time state of the TCP reactor: the live connection table
(by fd) and the log of user close-callback invocations (one entry per call,
by fd). -/
structure ShutdownState where
  connections : List Nat
  closeCbInvoked : List Nat
deriving Repr, DecidableEq

namespace SPSockTcp

/-- `SPSockTcp::Cleanup` (src/SPSock.cpp:427-442): for every connection in
the live table invoke the user close-callback (`proc.csp`, when set), close
the fd, then clear the table. -/
def Cleanup (hasCsp : Bool) (s : ShutdownState) : ShutdownState :=
  { connections := [],
    closeCbInvoked := s.closeCbInvoked ++ (if hasCsp then s.connections else []) }

/-- The tail of `SPSockTcp::EventLoop` after `MainEventLoop` returns
(src/SPSock.cpp:693-701): `pool.exit()` stops the worker pool and
`ExitIOEventLoop()` (src/SPSock.cpp:288-303) wakes each I/O loop's eventfd,
joins the loop threads and closes their descriptors.  Neither step touches
the connection table or calls `proc.csp`, and `Cleanup` has no call site
anywhere in the repository, so the table and the close-callback log are
returned unchanged. -/
def EventLoop_shutdownEpilogue (s : ShutdownState) : ShutdownState :=
  let afterPoolExit := s
  let afterExitIOEventLoop := afterPoolExit
  afterExitIOEventLoop

end SPSockTcp

namespace SPBuffer

lemma memcpyList_length {dest src : List Nat} {pos : Nat}
    (h : pos + src.length ≤ dest.length) :
    (memcpyList dest pos src).length = dest.length := by
  simp only [memcpyList, List.length_append, List.length_take, List.length_drop]
  omega

lemma memcpyList_getD {dest src : List Nat} {pos : Nat} (j : Nat)
    (h : pos + src.length ≤ dest.length) :
    (memcpyList dest pos src).getD j 0 =
      if pos ≤ j ∧ j < pos + src.length then src.getD (j - pos) 0
      else dest.getD j 0 := by
  have hlt : (dest.take pos).length = pos := by
    simp only [List.length_take]; omega
  simp only [memcpyList, List.getD_eq_getElem?_getD, List.getElem?_append, hlt]
  by_cases h1 : j < pos
  · rw [if_pos h1, if_neg (by omega : ¬(pos ≤ j ∧ j < pos + src.length)),
      List.getElem?_take, if_pos h1]
  · rw [if_neg h1]
    by_cases h2 : j - pos < src.length
    · rw [if_pos h2, if_pos (by omega : pos ≤ j ∧ j < pos + src.length)]
    · rw [if_neg h2, if_neg (by omega : ¬(pos ≤ j ∧ j < pos + src.length)),
        List.getElem?_drop]
      have h3 : pos + src.length + (j - pos - src.length) = j := by omega
      rw [h3]

lemma ring_index_inj {n a i j : Nat} (hi : i < n) (hj : j < n)
    (h : (a + i) % n = (a + j) % n) : i = j := by
  have h1 : i % n = j % n := Nat.ModEq.add_left_cancel' a h
  rwa [Nat.mod_eq_of_lt hi, Nat.mod_eq_of_lt hj] at h1

lemma contents_length (b : SPBuffer) : b.contents.length = b.size := by
  simp [contents]

lemma contents_getD {b : SPBuffer} {i : Nat} (hi : i < b.size) :
    b.contents.getD i 0 = b.buffer.getD ((b.back + i) % b.bsize) 0 := by
  simp [contents, List.getD_eq_getElem?_getD, List.getElem?_range hi]

lemma list_eq_of_getD {l₁ l₂ : List Nat} (hlen : l₁.length = l₂.length)
    (h : ∀ i, i < l₁.length → l₁.getD i 0 = l₂.getD i 0) : l₁ = l₂ := by
  apply List.ext_getElem hlen
  intro i h1 h2
  have h3 := h i h1
  simpa [List.getD_eq_getElem?_getD, List.getElem?_eq_getElem, h1, h2] using h3

/-- The unfolded form of `SPBuffer::write` on the non-trivial path. -/
lemma write_eq {b : SPBuffer} {data : List Nat} (hd : data.length ≠ 0)
    (hnb : ¬ data.length > b.bytesWrite) :
    b.write data =
      (data.length,
       { b with
         buffer :=
           (if (if b.front + data.length > b.bsize then b.bsize - b.front
                else data.length) < data.length then
              memcpyList
                (memcpyList b.buffer b.front
                  (data.take (if b.front + data.length > b.bsize then b.bsize - b.front
                    else data.length))) 0
                ((data.take data.length).drop
                  (if b.front + data.length > b.bsize then b.bsize - b.front
                    else data.length))
            else
              memcpyList b.buffer b.front
                (data.take (if b.front + data.length > b.bsize then b.bsize - b.front
                  else data.length))),
         front := (b.front + data.length) % b.bsize,
         size := b.size + data.length }) := by
  have hbw : b.bytesWrite ≠ 0 := by omega
  rw [write, if_neg (not_or.mpr ⟨hd, hbw⟩)]
  simp only [if_neg hnb]

/-- `SPBuffer::write` specification: when the data fits in the free space, it
is appended in full to the FIFO contents and the count copied is returned. -/
lemma write_spec {b : SPBuffer} {data : List Nat} (hwf : b.wf)
    (hfit : data.length + b.size ≤ b.bsize) :
    (b.write data).1 = data.length ∧
    (b.write data).2.wf ∧
    (b.write data).2.contents = b.contents ++ data ∧
    (b.write data).2.bsize = b.bsize ∧
    (b.write data).2.size = b.size + data.length := by
  obtain ⟨hpos, hlen, hback, hsize, hfront⟩ := hwf
  by_cases hd : data.length = 0
  · have hdata : data = [] := List.eq_nil_of_length_eq_zero hd
    subst hdata
    simp [write, wf, hpos, hlen, hback, hsize, hfront]
  · have hnb : ¬(data.length > b.bytesWrite) := by
      simp only [bytesWrite]; omega
    rw [write_eq hd hnb]
    set fc := if b.front + data.length > b.bsize then b.bsize - b.front
      else data.length with hfc
    have hfcle : fc ≤ data.length := by
      rw [hfc]; split <;> omega
    have hfrontlt : b.front < b.bsize := hfront ▸ Nat.mod_lt _ hpos
    have hfcb : b.front + fc ≤ b.bsize := by
      rw [hfc]; split <;> omega
    have hfcwrap : fc < data.length → fc = b.bsize - b.front := by
      intro hwrap
      rcases Nat.lt_or_ge b.bsize (b.front + data.length) with hcase | hcase
      · rw [hfc, if_pos hcase]
      · exfalso
        rw [hfc, if_neg (by omega)] at hwrap
        omega
    have hfclen : (data.take fc).length = fc := by
      simp only [List.length_take]; omega
    set buf1 := memcpyList b.buffer b.front (data.take fc) with hbuf1
    have hbuf1len : buf1.length = b.bsize := by
      rw [hbuf1, memcpyList_length (by rw [hfclen]; omega), hlen]
    set seg2 := (data.take data.length).drop fc with hseg2
    have hseg2len : seg2.length = data.length - fc := by
      simp only [hseg2, List.length_drop, List.length_take]; omega
    set buf2 := if fc < data.length then memcpyList buf1 0 seg2 else buf1 with hbuf2
    have hbuf2len : buf2.length = b.bsize := by
      rw [hbuf2]; split
      · rw [memcpyList_length (by rw [hseg2len, hbuf1len]; omega), hbuf1len]
      · exact hbuf1len
    have claimB : ∀ j, j < data.length →
        buf2.getD ((b.front + j) % b.bsize) 0 = data.getD j 0 := by
      intro j hj
      by_cases hjfc : j < fc
      · have hmod : (b.front + j) % b.bsize = b.front + j :=
          Nat.mod_eq_of_lt (by omega)
        have hstep1 : buf1.getD (b.front + j) 0 = data.getD j 0 := by
          rw [hbuf1, memcpyList_getD _ (by rw [hfclen]; omega),
            if_pos (by rw [hfclen]; omega)]
          simp only [List.getD_eq_getElem?_getD, List.getElem?_take,
            (by omega : b.front + j - b.front = j), if_pos hjfc]
        rw [hmod, hbuf2]
        split
        · rw [memcpyList_getD _ (by rw [hseg2len, hbuf1len]; omega),
            if_neg (by rw [hseg2len]; omega)]
          exact hstep1
        · exact hstep1
      · have hwrap : fc < data.length := by omega
        have hfceq := hfcwrap hwrap
        have hmod : (b.front + j) % b.bsize = j - fc := by
          have h1 : b.front + j = b.bsize + (j - fc) := by omega
          rw [h1, Nat.add_mod_left, Nat.mod_eq_of_lt (by omega)]
        rw [hmod, hbuf2, if_pos hwrap,
          memcpyList_getD _ (by rw [hseg2len, hbuf1len]; omega),
          if_pos (by rw [hseg2len]; omega)]
        simp only [hseg2, Nat.sub_zero, List.getD_eq_getElem?_getD,
          List.getElem?_drop, List.getElem?_take]
        rw [if_pos (by omega : fc + (j - fc) < data.length),
          (by omega : fc + (j - fc) = j)]
    have claimA : ∀ p, p < b.bsize → (∀ j, j < data.length → p ≠ (b.front + j) % b.bsize) →
        buf2.getD p 0 = b.buffer.getD p 0 := by
      intro p hp hnotin
      have hA1 : ¬(b.front ≤ p ∧ p < b.front + (data.take fc).length) := by
        rw [hfclen]
        rintro ⟨h1, h2⟩
        exact hnotin (p - b.front) (by omega)
          (by rw [(by omega : b.front + (p - b.front) = p), Nat.mod_eq_of_lt hp])
      have hstep1 : buf1.getD p 0 = b.buffer.getD p 0 := by
        rw [hbuf1, memcpyList_getD _ (by rw [hfclen]; omega), if_neg hA1]
      rw [hbuf2]
      split
      · case isTrue hwrap =>
        have hfceq := hfcwrap hwrap
        have hA2 : ¬(0 ≤ p ∧ p < 0 + seg2.length) := by
          rw [hseg2len]
          rintro ⟨_, h2⟩
          refine hnotin (fc + p) (by omega) ?_
          have h1 : b.front + (fc + p) = b.bsize + p := by omega
          rw [h1, Nat.add_mod_left, Nat.mod_eq_of_lt hp]
        rw [memcpyList_getD _ (by rw [hseg2len, hbuf1len]; omega), if_neg hA2]
        exact hstep1
      · exact hstep1
    refine ⟨rfl, ?_, ?_, rfl, rfl⟩
    · exact ⟨hpos, hbuf2len, hback,
        show b.size + data.length ≤ b.bsize by omega,
        show (b.front + data.length) % b.bsize = (b.back + (b.size + data.length)) % b.bsize by
          rw [hfront, Nat.mod_add_mod, Nat.add_assoc]⟩
    · simp only [contents]
      apply list_eq_of_getD
      · simp [contents_length]
      · intro i hi
        simp only [List.length_map, List.length_range] at hi
        have hL : ((List.range (b.size + data.length)).map
            (fun i => buf2.getD ((b.back + i) % b.bsize) 0)).getD i 0 =
            buf2.getD ((b.back + i) % b.bsize) 0 := by
          rw [List.getD_eq_getElem?_getD, List.getElem?_map, List.getElem?_range hi]
          rfl
        have hrhs : (b.contents ++ data).getD i 0 =
            if i < b.size then b.contents.getD i 0 else data.getD (i - b.size) 0 := by
          simp only [List.getD_eq_getElem?_getD, List.getElem?_append, contents_length]
          split <;> rfl
        rw [hL, show (List.range b.size).map
          (fun i => b.buffer.getD ((b.back + i) % b.bsize) 0) = b.contents from rfl, hrhs]
        by_cases hcase : i < b.size
        · rw [if_pos hcase, contents_getD hcase]
          apply claimA
          · exact Nat.mod_lt _ hpos
          · intro j hj heq
            have h1 : (b.front + j) % b.bsize = (b.back + (b.size + j)) % b.bsize := by
              rw [hfront, Nat.mod_add_mod, Nat.add_assoc]
            rw [h1] at heq
            have h2 := ring_index_inj (n := b.bsize) (a := b.back)
              (by omega : i < b.bsize) (by omega : b.size + j < b.bsize) heq
            omega
        · rw [if_neg hcase]
          have h1 : (b.back + i) % b.bsize = (b.front + (i - b.size)) % b.bsize := by
            rw [hfront, Nat.mod_add_mod, (by omega : b.back + b.size + (i - b.size) = b.back + i)]
          rw [h1]
          exact claimB (i - b.size) (by omega)

/-- `SPBuffer::read` specification: the bytes copied out are the FIFO prefix
of the live contents (up to `len`), and the remaining contents are the
corresponding suffix. -/
lemma read_spec {b : SPBuffer} (len : Nat) (hwf : b.wf) :
    (b.read len).1 = b.contents.take len ∧
    (b.read len).2.wf ∧
    (b.read len).2.contents = b.contents.drop len ∧
    (b.read len).2.bsize = b.bsize := by
  obtain ⟨hpos, hlen, hback, hsize, hfront⟩ := hwf
  by_cases hlen0 : len = 0
  · subst hlen0
    simp [read, wf, hpos, hlen, hback, hsize, hfront]
  · by_cases hsz : b.size = 0
    · have hempty : b.contents = [] := by
        simp [contents, hsz]
      simp [read, hsz, hempty, wf, hpos, hlen, hback, hsize, hfront]
    · simp only [read, if_neg (not_or.mpr ⟨hlen0, hsz⟩)]
      set btr := if len > b.size then b.size else len with hbtr
      have hbtrpos : 0 < btr := by rw [hbtr]; split <;> omega
      have hbtrle : btr ≤ b.size := by rw [hbtr]; split <;> omega
      have hbtrlen : btr ≤ len := by rw [hbtr]; split <;> omega
      set fc := if b.back + btr > b.bsize then b.bsize - b.back else btr with hfc
      have hfcle : fc ≤ btr := by rw [hfc]; split <;> omega
      have hfcb : b.back + fc ≤ b.bsize := by rw [hfc]; split <;> omega
      have hfcwrap : fc < btr → fc = b.bsize - b.back := by
        intro hwrap
        rcases Nat.lt_or_ge b.bsize (b.back + btr) with hcase | hcase
        · rw [hfc, if_pos hcase]
        · exfalso
          rw [hfc, if_neg (by omega)] at hwrap
          omega
      set out := (b.buffer.drop b.back).take fc ++ b.buffer.take (btr - fc) with hout
      have houtchar : out =
          (List.range btr).map (fun i => b.buffer.getD ((b.back + i) % b.bsize) 0) := by
        apply list_eq_of_getD
        · simp only [hout, List.length_append, List.length_take, List.length_drop,
            List.length_map, List.length_range, hlen]
          omega
        · intro i hi
          have hi2 : i < btr := by
            simp only [hout, List.length_append, List.length_take, List.length_drop,
              hlen] at hi
            omega
          have hlhs1 : ((b.buffer.drop b.back).take fc).length = fc := by
            simp only [List.length_take, List.length_drop, hlen]
            omega
          have hR : ((List.range btr).map
              (fun i => b.buffer.getD ((b.back + i) % b.bsize) 0)).getD i 0 =
              b.buffer.getD ((b.back + i) % b.bsize) 0 := by
            rw [List.getD_eq_getElem?_getD, List.getElem?_map, List.getElem?_range hi2]
            rfl
          rw [hR, hout]
          by_cases hcase : i < fc
          · rw [List.getD_eq_getElem?_getD, List.getElem?_append, if_pos (by omega),
              List.getElem?_take, if_pos hcase, List.getElem?_drop,
              Nat.mod_eq_of_lt (by omega : b.back + i < b.bsize)]
            exact (List.getD_eq_getElem?_getD _ _ _).symm
          · have hwrap : fc < btr := by omega
            have hfceq := hfcwrap hwrap
            rw [List.getD_eq_getElem?_getD, List.getElem?_append, if_neg (by omega),
              hlhs1, List.getElem?_take, if_pos (by omega : i - fc < btr - fc)]
            have hmod : (b.back + i) % b.bsize = i - fc := by
              have h1 : b.back + i = b.bsize + (i - fc) := by omega
              rw [h1, Nat.add_mod_left, Nat.mod_eq_of_lt (by omega)]
            rw [hmod]
            exact (List.getD_eq_getElem?_getD _ _ _).symm
      have hminbtr : len ⊓ b.size = btr := by
        rw [hbtr]
        rcases Nat.lt_or_ge b.size len with h | h
        · rw [if_pos (by omega : len > b.size)]
          omega
        · rw [if_neg (by omega : ¬len > b.size)]
          omega
      have htake : b.contents.take len = (List.range btr).map
          (fun i => b.buffer.getD ((b.back + i) % b.bsize) 0) := by
        rw [contents, ← List.map_take, List.take_range, hminbtr]
      by_cases hdrain : b.size - btr = 0
      · rw [if_pos hdrain]
        refine ⟨by rw [houtchar, htake], ?_, ?_, rfl⟩
        · exact ⟨hpos, hlen, hpos, Nat.zero_le _, by simp⟩
        · have hdropnil : b.contents.drop len = [] :=
            List.drop_eq_nil_of_le (by rw [contents_length]; omega)
          rw [hdropnil]
          simp [contents]
      · rw [if_neg hdrain]
        have hbtreq : btr = len := by
          rw [hbtr] at hdrain ⊢
          rcases Nat.lt_or_ge b.size len with h | h
          · rw [if_pos (by omega)] at hdrain; omega
          · rw [if_neg (by omega)]
        refine ⟨by rw [houtchar, htake], ?_, ?_, rfl⟩
        · refine ⟨hpos, hlen, Nat.mod_lt _ hpos,
            show b.size - btr ≤ b.bsize by omega, ?_⟩
          show b.front = ((b.back + btr) % b.bsize + (b.size - btr)) % b.bsize
          rw [hfront, Nat.mod_add_mod, (by omega : b.back + btr + (b.size - btr) = b.back + b.size)]
        · apply list_eq_of_getD
          · simp only [contents, List.length_map, List.length_range, List.length_drop,
              contents_length]
            omega
          · intro i hi
            simp only [contents, List.length_map, List.length_range] at hi
            replace hi : i < b.size - btr := hi
            have hL : (SPBuffer.contents
                { b with size := b.size - btr, back := (b.back + btr) % b.bsize }).getD i 0 =
                b.buffer.getD (((b.back + btr) % b.bsize + i) % b.bsize) 0 := by
              rw [contents, List.getD_eq_getElem?_getD, List.getElem?_map,
                List.getElem?_range (by simpa using hi)]
              rfl
            have hR : (b.contents.drop len).getD i 0 =
                b.buffer.getD ((b.back + (len + i)) % b.bsize) 0 := by
              rw [List.getD_eq_getElem?_getD, List.getElem?_drop,
                ← List.getD_eq_getElem?_getD, contents_getD (show len + i < b.size by omega)]
            rw [hL, hR, Nat.mod_add_mod, ← Nat.add_assoc, hbtreq]

end SPBuffer

namespace SPBuffer

lemma runOps_spec {b : SPBuffer} {ops : List RingOp} (hwf : b.wf)
    (hfit : opsFit b ops = true) :
    (runOps b ops).2.wf ∧
    (runOps b ops).1 ++ (runOps b ops).2.contents = b.contents ++ inputsOf ops := by
  induction ops generalizing b with
  | nil => simpa [runOps, inputsOf]
  | cons op rest ih =>
    cases op with
    | copyIn data =>
      simp only [opsFit, Bool.and_eq_true, decide_eq_true_eq] at hfit
      obtain ⟨hle, hfit2⟩ := hfit
      obtain ⟨_, hwf2, hcont, _, _⟩ := write_spec hwf hle
      obtain ⟨ihwf, iheq⟩ := ih hwf2 hfit2
      refine ⟨ihwf, ?_⟩
      simp only [runOps, inputsOf]
      rw [iheq, hcont, List.append_assoc]
    | copyOut len =>
      simp only [opsFit] at hfit
      obtain ⟨hout, hwf2, hcont, _⟩ := read_spec len hwf
      obtain ⟨ihwf, iheq⟩ := ih hwf2 hfit
      refine ⟨ihwf, ?_⟩
      simp only [runOps, inputsOf]
      rw [List.append_assoc, iheq, hcont, hout, ← List.append_assoc,
        List.take_append_drop]

lemma init_wf {cap : Nat} (hcap : 0 < cap) : (SPBuffer.init cap).wf :=
  ⟨hcap, by simp [init], hcap, Nat.zero_le _, by simp [init]⟩

end SPBuffer

/-- **C9**: for every byte string `S` (the concatenation of the `copyIn`
chunks of the interleaving) and every interleaving of `copy_in`/`copy_out`
calls such that the cumulative unread input never exceeds the ring capacity
at any step, if the trailing reads drain the ring, the concatenation of all
bytes returned by the reads equals `S`: no loss, duplication or reordering
through the ring. -/
theorem C9_ring_round_trip {cap : Nat} {ops : List RingOp} (hcap : 0 < cap)
    (hfit : opsFit (SPBuffer.init cap) ops = true)
    (hdrained : (runOps (SPBuffer.init cap) ops).2.size = 0) :
    (runOps (SPBuffer.init cap) ops).1 = inputsOf ops := by
  obtain ⟨hwff, heq⟩ := SPBuffer.runOps_spec (SPBuffer.init_wf hcap) hfit
  have hcont0 : (SPBuffer.init cap).contents = [] := by
    simp [SPBuffer.contents, SPBuffer.init]
  have hcontf : (runOps (SPBuffer.init cap) ops).2.contents = [] := by
    simp [SPBuffer.contents, hdrained]
  rw [hcont0, hcontf] at heq
  simpa using heq

/-- Witness for C9 at a concrete interleaving that wraps the ring. -/
theorem C9_ring_round_trip_witness :
    (runOps (SPBuffer.init 4)
      [RingOp.copyIn [1, 2, 3], RingOp.copyOut 2, RingOp.copyIn [4, 5, 6],
        RingOp.copyOut 10]).1 =
      inputsOf [RingOp.copyIn [1, 2, 3], RingOp.copyOut 2, RingOp.copyIn [4, 5, 6],
        RingOp.copyOut 10] :=
  C9_ring_round_trip (by decide) (by decide) (by decide)

/-- **C8** counterexample: the state reached by writing two bytes into a
fresh four-byte ring and then `commitRead 2` (an in-range argument) leaves
the live count at zero with the indices *not* reset — `commitRead`
(src/SPBuffer.cpp:43-47) performs no reset, refuting the claim for the
operation set {read, write, commitRead, commitWrite, peek}. -/
theorem C8_counterexample :
    ((SPBuffer.init 4).write [1, 2]).2 = SPBuffer.mk [1, 2, 0, 0] 0 2 2 4 ∧
    (SPBuffer.mk [1, 2, 0, 0] 0 2 2 4).wf ∧
    2 ≤ (SPBuffer.mk [1, 2, 0, 0] 0 2 2 4).size ∧
    ((SPBuffer.mk [1, 2, 0, 0] 0 2 2 4).commitRead 2).size = 0 ∧
    ¬(((SPBuffer.mk [1, 2, 0, 0] 0 2 2 4).commitRead 2).back = 0 ∧
      ((SPBuffer.mk [1, 2, 0, 0] 0 2 2 4).commitRead 2).front = 0) := by
  decide

/-- **C8 (amended)**: of the ring-buffer operations, `read` resets both
indices to zero whenever a non-trivial copy (`len ≠ 0`, buffer non-empty)
leaves the live count at zero, and `commitWrite` resets both indices
whenever its update leaves the live count at zero; `commitRead` performs no
reset (see the counterexample), and `peek` does not modify the state. -/
theorem C8_reset_on_empty {b : SPBuffer} {len : Nat} (_hwf : b.wf) :
    (((b.read len).2.size = 0 ∧ b.size ≠ 0 ∧ len ≠ 0) →
      (b.read len).2.back = 0 ∧ (b.read len).2.front = 0) ∧
    ((b.commitWrite len).size = 0 →
      (b.commitWrite len).back = 0 ∧ (b.commitWrite len).front = 0) := by
  constructor
  · rintro ⟨hzero, hsz, hlen0⟩
    by_cases hdrain : b.size - (if len > b.size then b.size else len) = 0
    · constructor <;> simp [SPBuffer.read, not_or.mpr ⟨hlen0, hsz⟩, hdrain]
    · exfalso
      simp [SPBuffer.read, not_or.mpr ⟨hlen0, hsz⟩, hdrain] at hzero
  · intro hzero
    by_cases hc : b.size + len = 0
    · constructor <;> simp [SPBuffer.commitWrite, hc]
    · exfalso
      simp [SPBuffer.commitWrite, hc] at hzero

/-- Witness for the amended C8 at concrete inputs. -/
theorem C8_reset_on_empty_witness :
    (((SPBuffer.mk [1, 2, 0, 0] 0 2 2 4).read 2).2.back = 0 ∧
      ((SPBuffer.mk [1, 2, 0, 0] 0 2 2 4).read 2).2.front = 0) ∧
    (((SPBuffer.mk [0, 0, 0, 0] 0 0 0 4).commitWrite 0).back = 0 ∧
      ((SPBuffer.mk [0, 0, 0, 0] 0 0 0 4).commitWrite 0).front = 0) :=
  ⟨(@C8_reset_on_empty (SPBuffer.mk [1, 2, 0, 0] 0 2 2 4) 2 (by decide)).1 (by decide),
   (@C8_reset_on_empty (SPBuffer.mk [0, 0, 0, 0] 0 0 0 4) 0 (by decide)).2 (by decide)⟩

namespace SOCKController

lemma commitWriteLoop_result {s : List SysResult} {b : SPBuffer}
    (hb : 0 < b.bsize) (hback : b.back < b.bsize) :
    (commitWriteLoop b s).1 ≠ -2 ∧
    ((commitWriteLoop b s).1 < 0 → (commitWriteLoop b s).1 = -1) ∧
    (0 ≤ (commitWriteLoop b s).1 →
      (commitWriteLoop b s).1 = ((commitWriteLoop b s).2.bytesRead : Int)) := by
  induction s generalizing b with
  | nil =>
    by_cases hd : b.distanceRead = 0
    · have hsz : b.size = 0 := by
        simp only [SPBuffer.distanceRead, SPBuffer.bytesRead] at hd
        omega
      have heq : commitWriteLoop b [] = (0, b) := by
        rw [commitWriteLoop, if_pos hd]
      rw [heq]
      exact ⟨show (0 : Int) ≠ -2 by decide, show (0 : Int) < 0 → _ by omega,
        fun _ => show (0 : Int) = (b.bytesRead : Int) by
          simp [SPBuffer.bytesRead, hsz]⟩
    · have heq : commitWriteLoop b [] = ((b.bytesRead : Int), b) := by
        rw [commitWriteLoop, if_neg hd]
      rw [heq]
      exact ⟨show (b.bytesRead : Int) ≠ -2 by omega,
        show (b.bytesRead : Int) < 0 → _ by omega, fun _ => rfl⟩
  | cons r rest ih =>
    by_cases hd : b.distanceRead = 0
    · have hsz : b.size = 0 := by
        simp only [SPBuffer.distanceRead, SPBuffer.bytesRead] at hd
        omega
      have heq : commitWriteLoop b (r :: rest) = (0, b) := by
        cases r <;> rw [commitWriteLoop, if_pos hd]
      rw [heq]
      exact ⟨show (0 : Int) ≠ -2 by decide, show (0 : Int) < 0 → _ by omega,
        fun _ => show (0 : Int) = (b.bytesRead : Int) by
          simp [SPBuffer.bytesRead, hsz]⟩
    · cases r with
      | eintr =>
        have heq : commitWriteLoop b (SysResult.eintr :: rest) =
            commitWriteLoop b rest := by
          rw [commitWriteLoop, if_neg hd]
        rw [heq]
        exact ih hb hback
      | sent n =>
        by_cases hz : min n b.distanceRead = 0
        · have heq : commitWriteLoop b (SysResult.sent n :: rest) =
              ((b.bytesRead : Int), b) := by
            rw [commitWriteLoop, if_neg hd]
            simp only [if_pos hz]
          rw [heq]
          exact ⟨show (b.bytesRead : Int) ≠ -2 by omega,
            show (b.bytesRead : Int) < 0 → _ by omega, fun _ => rfl⟩
        · by_cases hlt : min n b.distanceRead < b.distanceRead
          · have heq : commitWriteLoop b (SysResult.sent n :: rest) =
                (((b.commitRead (min n b.distanceRead)).bytesRead : Int),
                  b.commitRead (min n b.distanceRead)) := by
              rw [commitWriteLoop, if_neg hd]
              simp only [if_neg hz, if_pos hlt]
            rw [heq]
            exact ⟨by omega, by omega, fun _ => rfl⟩
          · have heq : commitWriteLoop b (SysResult.sent n :: rest) =
                commitWriteLoop (b.commitRead (min n b.distanceRead)) rest := by
              rw [commitWriteLoop, if_neg hd]
              simp only [if_neg hz, if_neg hlt]
            rw [heq]
            exact ih hb (Nat.mod_lt _ hb)
      | eagain =>
        have heq : commitWriteLoop b (SysResult.eagain :: rest) =
            ((b.bytesRead : Int), b) := by
          rw [commitWriteLoop, if_neg hd]
        rw [heq]
        exact ⟨show (b.bytesRead : Int) ≠ -2 by omega,
          show (b.bytesRead : Int) < 0 → _ by omega, fun _ => rfl⟩
      | epipe =>
        have heq : commitWriteLoop b (SysResult.epipe :: rest) = (-1, b) := by
          rw [commitWriteLoop, if_neg hd]
        rw [heq]
        exact ⟨show (-1 : Int) ≠ -2 by decide, fun _ => rfl,
          show (0 : Int) ≤ -1 → _ by omega⟩
      | econnreset =>
        have heq : commitWriteLoop b (SysResult.econnreset :: rest) = (-1, b) := by
          rw [commitWriteLoop, if_neg hd]
        rw [heq]
        exact ⟨show (-1 : Int) ≠ -2 by decide, fun _ => rfl,
          show (0 : Int) ≤ -1 → _ by omega⟩
      | err =>
        have heq : commitWriteLoop b (SysResult.err :: rest) = (-1, b) := by
          rw [commitWriteLoop, if_neg hd]
        rw [heq]
        exact ⟨show (-1 : Int) ≠ -2 by decide, fun _ => rfl,
          show (0 : Int) ≤ -1 → _ by omega⟩

end SOCKController

/-- **C5** counterexample: a write ring holding one live byte, drained while
the peer has hung up (the `send` fails with `EPIPE`, resp. `ECONNRESET`):
`commitWrite` returns -1, not -2 — `writeInner` (src/SPController.cpp:40-54)
maps every errno other than `EINTR`/`EAGAIN` to -1, so the claimed -2 result
for peer hang-up is never produced by `commitWrite`. -/
theorem C5_counterexample :
    (SOCKController.commitWriteLoop (SPBuffer.mk [9, 0, 0, 0] 0 1 1 4)
      [SysResult.epipe]).1 = -1 ∧
    (SOCKController.commitWriteLoop (SPBuffer.mk [9, 0, 0, 0] 0 1 1 4)
      [SysResult.econnreset]).1 = -1 ∧
    ((-1 : Int) ≠ -2) ∧ (SPBuffer.mk [9, 0, 0, 0] 0 1 1 4).wf := by
  decide

/-- **C5 (amended)**: `commitWrite` drains the write ring and returns the
number of bytes still buffered on success (0 when fully drained) and -1 on
*any* send error — including the `EPIPE`/`ECONNRESET` peer hang-up, which it
does not distinguish; it never returns -2.  The -2 peer-closed result (with
the `peerClosed` latch) is produced only by the direct `write()` path. -/
theorem C5_commitWrite_result {s : List SysResult} {b : SPBuffer} (hwf : b.wf) :
    (SOCKController.commitWriteLoop b s).1 ≠ -2 ∧
    ((SOCKController.commitWriteLoop b s).1 < 0 →
      (SOCKController.commitWriteLoop b s).1 = -1) ∧
    (0 ≤ (SOCKController.commitWriteLoop b s).1 →
      (SOCKController.commitWriteLoop b s).1 =
        ((SOCKController.commitWriteLoop b s).2.bytesRead : Int)) ∧
    (∀ (len : Nat) (rest : List SysResult),
      SOCKController.writeDirect len (SysResult.epipe :: rest) = (-2, true) ∧
      SOCKController.writeDirect len (SysResult.econnreset :: rest) = (-2, true)) := by
  obtain ⟨hcw1, hcw2, hcw3⟩ := SOCKController.commitWriteLoop_result (s := s)
    hwf.1 hwf.2.2.1
  exact ⟨hcw1, hcw2, hcw3, fun len rest => ⟨rfl, rfl⟩⟩

/-- Witness for the amended C5 at a concrete ring and socket model. -/
theorem C5_commitWrite_result_witness :
    (SOCKController.commitWriteLoop (SPBuffer.mk [9, 0, 0, 0] 0 1 1 4)
      [SysResult.err]).1 ≠ -2 ∧
    (SOCKController.commitWriteLoop (SPBuffer.mk [9, 0, 0, 0] 0 1 1 4)
      [SysResult.err]).1 = -1 ∧
    SOCKController.writeDirect 1 [SysResult.epipe] = (-2, true) :=
  ⟨(C5_commitWrite_result (s := [SysResult.err]) (by decide)).1,
   (C5_commitWrite_result (s := [SysResult.err]) (by decide)).2.1 (by decide),
   ((C5_commitWrite_result (s := [SysResult.err])
      (b := SPBuffer.mk [9, 0, 0, 0] 0 1 1 4) (by decide)).2.2.2 1 []).1⟩

namespace SPSockTcp

lemma HandleRead_rdp_spec (wtp : Bool) (mark : SPWaterMark) (c0 : SOCKController)
    (recvRes : List SysResult) (epollOk : Bool) :
    ((c0.readSocket recvRes).1 = false →
      (HandleRead true wtp mark c0 recvRes epollOk).keepOpen = false ∧
      (HandleRead true wtp mark c0 recvRes epollOk).staged = false) ∧
    ((c0.readSocket recvRes).1 = true →
      ((c0.readSocket recvRes).2.isPeerClosed ∧
        (c0.readSocket recvRes).2.getReadBufferSize = 0) →
      (HandleRead true wtp mark c0 recvRes epollOk).keepOpen = false ∧
      (HandleRead true wtp mark c0 recvRes epollOk).staged = false) ∧
    ((c0.readSocket recvRes).1 = true →
      ¬((c0.readSocket recvRes).2.isPeerClosed ∧
        (c0.readSocket recvRes).2.getReadBufferSize = 0) →
      ((HandleRead true wtp mark c0 recvRes epollOk).staged = true ↔
        (mark.readMark = 0 ∨
          mark.readMark ≤ (c0.readSocket recvRes).2.getReadBufferSize))) ∧
    ((c0.readSocket recvRes).1 = true →
      ¬((c0.readSocket recvRes).2.isPeerClosed ∧
        (c0.readSocket recvRes).2.getReadBufferSize = 0) →
      ¬(mark.readMark = 0 ∨
          mark.readMark ≤ (c0.readSocket recvRes).2.getReadBufferSize) →
      (HandleRead true wtp mark c0 recvRes epollOk).keepOpen = epollOk ∧
      (HandleRead true wtp mark c0 recvRes epollOk).rearmed = epollOk) ∧
    ((HandleRead true wtp mark c0 recvRes epollOk).staged = true →
      mark.readMark ≤ (c0.readSocket recvRes).2.getReadBufferSize) := by
  by_cases h1 : (c0.readSocket recvRes).1 = false
  · have heq : HandleRead true wtp mark c0 recvRes epollOk =
        ⟨false, (c0.readSocket recvRes).2, false, false⟩ := by
      simp only [HandleRead, if_pos h1]
    rw [heq]
    refine ⟨fun _ => ⟨rfl, rfl⟩, fun _ _ => ⟨rfl, rfl⟩, ?_, fun ht _ _ => ?_, ?_⟩
    · intro ht _
      rw [h1] at ht
      exact absurd ht (by decide)
    · rw [h1] at ht
      exact absurd ht (by decide)
    · intro hs
      exact absurd hs Bool.false_ne_true
  · by_cases h2 : ((c0.readSocket recvRes).2.isPeerClosed ∧
        (c0.readSocket recvRes).2.getReadBufferSize = 0)
    · have heq : HandleRead true wtp mark c0 recvRes epollOk =
          ⟨false, (c0.readSocket recvRes).2, false, false⟩ := by
        simp only [HandleRead, if_neg h1, if_pos h2]
      rw [heq]
      exact ⟨fun hf => absurd hf h1, fun _ _ => ⟨rfl, rfl⟩,
        fun _ hn => absurd h2 hn, fun _ hn => absurd h2 hn,
        fun hs => absurd hs Bool.false_ne_true⟩
    · by_cases h3 : mark.readMark = 0
      · have heq : HandleRead true wtp mark c0 recvRes epollOk =
            ⟨true, (c0.readSocket recvRes).2, true, false⟩ := by
          simp only [HandleRead, if_neg h1, if_neg h2, if_pos h3]
        rw [heq]
        exact ⟨fun hf => absurd hf h1, fun _ h2' => absurd h2' h2,
          fun _ _ => ⟨fun _ => Or.inl h3, fun _ => rfl⟩,
          fun _ _ hno => absurd (Or.inl h3) hno,
          fun _ => by omega⟩
      · by_cases h4 : (c0.readSocket recvRes).2.getReadBufferSize ≥ mark.readMark
        · have heq : HandleRead true wtp mark c0 recvRes epollOk =
              ⟨true, (c0.readSocket recvRes).2, true, false⟩ := by
            simp only [HandleRead, if_neg h1, if_neg h2, if_neg h3, if_pos h4]
          rw [heq]
          exact ⟨fun hf => absurd hf h1, fun _ h2' => absurd h2' h2,
            fun _ _ => ⟨fun _ => Or.inr h4, fun _ => rfl⟩,
            fun _ _ hno => absurd (Or.inr h4) hno,
            fun _ => h4⟩
        · cases epollOk with
          | true =>
            have heq : HandleRead true wtp mark c0 recvRes true =
                ⟨true, (c0.readSocket recvRes).2, false, true⟩ := by
              simp [HandleRead, if_neg h1, if_neg h2, if_neg h3, if_neg h4,
                SOCKController.renableEvents]
            rw [heq]
            refine ⟨fun hf => absurd hf h1, fun _ h2' => absurd h2' h2,
              fun _ _ => ?_, fun _ _ _ => ⟨rfl, rfl⟩,
              fun hs => absurd hs Bool.false_ne_true⟩
            exact iff_of_false Bool.false_ne_true (not_or.mpr ⟨h3, h4⟩)
          | false =>
            have heq : HandleRead true wtp mark c0 recvRes false =
                ⟨false, { (c0.readSocket recvRes).2 with events := 0 },
                  false, false⟩ := by
              simp [HandleRead, if_neg h1, if_neg h2, if_neg h3, if_neg h4,
                SOCKController.renableEvents]
            rw [heq]
            refine ⟨fun hf => absurd hf h1, fun _ h2' => absurd h2' h2,
              fun _ _ => ?_, fun _ _ _ => ⟨rfl, rfl⟩,
              fun hs => absurd hs Bool.false_ne_true⟩
            exact iff_of_false Bool.false_ne_true (not_or.mpr ⟨h3, h4⟩)

end SPSockTcp

/-- **C1** (code behaviour at the failing input): in the degenerate branches
— only one callback kind registered and the other readiness kind fires —
`HandleRead`/`HandleWrite` treat a *successful* re-arm as the error: when
`enableEvents` succeeds the handler returns `false` and the caller
`ActiveClose`s the connection, and when the re-arm *fails* it returns `true`
and the connection stays open (disarmed, and never closed).  This inverts
the claimed behaviour in both handlers. -/
theorem C1_degenerate_rearm_inverted :
    ((SPSockTcp.HandleRead false true SPSockTcp.Config_markGlobal
        (SOCKController.mk (SPBuffer.init 4) (SPBuffer.init 4) false EPOLLOUT) []
        true).keepOpen = false ∧
     (SPSockTcp.HandleRead false true SPSockTcp.Config_markGlobal
        (SOCKController.mk (SPBuffer.init 4) (SPBuffer.init 4) false EPOLLOUT) []
        true).rearmed = true) ∧
    (SPSockTcp.HandleRead false true SPSockTcp.Config_markGlobal
        (SOCKController.mk (SPBuffer.init 4) (SPBuffer.init 4) false EPOLLOUT) []
        false).keepOpen = true ∧
    ((SPSockTcp.HandleWrite true false SPSockTcp.Config_markGlobal
        (SOCKController.mk (SPBuffer.init 4) (SPBuffer.init 4) false EPOLLIN) []
        true).keepOpen = false ∧
     (SPSockTcp.HandleWrite true false SPSockTcp.Config_markGlobal
        (SOCKController.mk (SPBuffer.init 4) (SPBuffer.init 4) false EPOLLIN) []
        true).rearmed = true) ∧
    (SPSockTcp.HandleWrite true false SPSockTcp.Config_markGlobal
        (SOCKController.mk (SPBuffer.init 4) (SPBuffer.init 4) false EPOLLIN) []
        false).keepOpen = true := by
  decide

/-- **C3**: on an `EPOLLIN | EPOLLRDHUP` event for a connection with a read
callback registered, the dispatch latches `peer_closed` when `EPOLLRDHUP` is
set, runs the read-drain, closes on drain failure, otherwise closes when
`peer_closed` is latched and the read ring is empty, otherwise stages the
read-callback task iff `read_mark = 0` or the ring holds at least
`read_mark` bytes, and otherwise re-arms the previous interest mask (closing
exactly when the re-arm fails); the read callback is staged only when
`bytes_readable ≥ read_mark` at the moment of the check. -/
theorem C3_read_dispatch_order (wtp : Bool) (mark : SPWaterMark)
    (c : SOCKController) (evts : Nat) (recvRes : List SysResult) (epollOk : Bool) :
    ((if evts &&& EPOLLRDHUP ≠ 0 then { c with peerClosed := true } else c).peerClosed
        = (c.peerClosed || decide (evts &&& EPOLLRDHUP ≠ 0))) ∧
    (((if evts &&& EPOLLRDHUP ≠ 0 then { c with peerClosed := true }
        else c).readSocket recvRes).1 = false →
      (SPSockTcp.dispatchReadEvent evts true wtp mark c recvRes epollOk).keepOpen = false ∧
      (SPSockTcp.dispatchReadEvent evts true wtp mark c recvRes epollOk).staged = false) ∧
    (((if evts &&& EPOLLRDHUP ≠ 0 then { c with peerClosed := true }
        else c).readSocket recvRes).1 = true →
      (((if evts &&& EPOLLRDHUP ≠ 0 then { c with peerClosed := true }
          else c).readSocket recvRes).2.isPeerClosed ∧
        ((if evts &&& EPOLLRDHUP ≠ 0 then { c with peerClosed := true }
          else c).readSocket recvRes).2.getReadBufferSize = 0) →
      (SPSockTcp.dispatchReadEvent evts true wtp mark c recvRes epollOk).keepOpen = false ∧
      (SPSockTcp.dispatchReadEvent evts true wtp mark c recvRes epollOk).staged = false) ∧
    (((if evts &&& EPOLLRDHUP ≠ 0 then { c with peerClosed := true }
        else c).readSocket recvRes).1 = true →
      ¬(((if evts &&& EPOLLRDHUP ≠ 0 then { c with peerClosed := true }
          else c).readSocket recvRes).2.isPeerClosed ∧
        ((if evts &&& EPOLLRDHUP ≠ 0 then { c with peerClosed := true }
          else c).readSocket recvRes).2.getReadBufferSize = 0) →
      ((SPSockTcp.dispatchReadEvent evts true wtp mark c recvRes epollOk).staged = true ↔
        (mark.readMark = 0 ∨ mark.readMark ≤
          ((if evts &&& EPOLLRDHUP ≠ 0 then { c with peerClosed := true }
            else c).readSocket recvRes).2.getReadBufferSize))) ∧
    (((if evts &&& EPOLLRDHUP ≠ 0 then { c with peerClosed := true }
        else c).readSocket recvRes).1 = true →
      ¬(((if evts &&& EPOLLRDHUP ≠ 0 then { c with peerClosed := true }
          else c).readSocket recvRes).2.isPeerClosed ∧
        ((if evts &&& EPOLLRDHUP ≠ 0 then { c with peerClosed := true }
          else c).readSocket recvRes).2.getReadBufferSize = 0) →
      ¬(mark.readMark = 0 ∨ mark.readMark ≤
          ((if evts &&& EPOLLRDHUP ≠ 0 then { c with peerClosed := true }
            else c).readSocket recvRes).2.getReadBufferSize) →
      (SPSockTcp.dispatchReadEvent evts true wtp mark c recvRes epollOk).keepOpen = epollOk ∧
      (SPSockTcp.dispatchReadEvent evts true wtp mark c recvRes epollOk).rearmed = epollOk) ∧
    ((SPSockTcp.dispatchReadEvent evts true wtp mark c recvRes epollOk).staged = true →
      mark.readMark ≤
        ((if evts &&& EPOLLRDHUP ≠ 0 then { c with peerClosed := true }
          else c).readSocket recvRes).2.getReadBufferSize) := by
  have hlatch : (if evts &&& EPOLLRDHUP ≠ 0 then { c with peerClosed := true }
      else c).peerClosed = (c.peerClosed || decide (evts &&& EPOLLRDHUP ≠ 0)) := by
    split
    · next h => simp [h]
    · next h => simp [h]
  have hmain := SPSockTcp.HandleRead_rdp_spec wtp mark
    (if evts &&& EPOLLRDHUP ≠ 0 then { c with peerClosed := true } else c)
    recvRes epollOk
  have hr : SPSockTcp.dispatchReadEvent evts true wtp mark c recvRes epollOk =
      SPSockTcp.HandleRead true wtp mark
        (if evts &&& EPOLLRDHUP ≠ 0 then { c with peerClosed := true } else c)
        recvRes epollOk := rfl
  rw [hr]
  exact ⟨hlatch, hmain.1, hmain.2.1, hmain.2.2.1, hmain.2.2.2.1, hmain.2.2.2.2⟩

/-- Witness for C3 at concrete inputs: an event with `EPOLLRDHUP` clear, a
drain of three bytes into an empty four-byte ring, watermark 2 satisfied,
so the task is staged. -/
theorem C3_read_dispatch_order_witness :
    (SPSockTcp.dispatchReadEvent EPOLLIN true false ⟨2, 0⟩
      (SOCKController.mk (SPBuffer.init 4) (SPBuffer.init 4) false EPOLLIN)
      [SysResult.sent 3] true).staged = true :=
  ((C3_read_dispatch_order false ⟨2, 0⟩
      (SOCKController.mk (SPBuffer.init 4) (SPBuffer.init 4) false EPOLLIN)
      EPOLLIN [SysResult.sent 3] true).2.2.2.1
    (by decide) (by decide)).mpr (by decide)

/-- **C10**: `SPSockTcp::Config` resets the global watermarks to
`readMark = 0, writeMark = 0`; hence until `SetWaterMark` is called, a
read-readiness event whose drain succeeds stages the read callback on any
nonzero read-ring occupancy, while a write-readiness event stages the write
callback only once `commitWrite` has drained the write ring to zero bytes —
because `writeMark = 0` is distinct from the dispatch-immediately sentinel
`0xffffffff` checked by `HandleWrite`. -/
theorem C10_default_watermarks :
    SPSockTcp.Config_markGlobal = ⟨0, 0⟩ ∧
    SPSockTcp.Config_markGlobal.writeMark ≠ 0xffffffff ∧
    (∀ (wtp : Bool) (c : SOCKController) (evts : Nat) (recvRes : List SysResult)
        (epollOk : Bool),
      ((if evts &&& EPOLLRDHUP ≠ 0 then { c with peerClosed := true }
          else c).readSocket recvRes).1 = true →
      ((if evts &&& EPOLLRDHUP ≠ 0 then { c with peerClosed := true }
          else c).readSocket recvRes).2.getReadBufferSize ≠ 0 →
      (SPSockTcp.dispatchReadEvent evts true wtp SPSockTcp.Config_markGlobal c
        recvRes epollOk).staged = true) ∧
    (∀ (rdp : Bool) (c : SOCKController) (sendRes : List SysResult) (epollOk : Bool),
      (SPSockTcp.HandleWrite rdp true SPSockTcp.Config_markGlobal c sendRes
        epollOk).staged = true →
      (c.commitWrite sendRes).2.getWriteBufferSize = 0) := by
  refine ⟨rfl, by decide, ?_, ?_⟩
  · intro wtp c evts recvRes epollOk hok hsz
    have hmain := SPSockTcp.HandleRead_rdp_spec wtp SPSockTcp.Config_markGlobal
      (if evts &&& EPOLLRDHUP ≠ 0 then { c with peerClosed := true } else c)
      recvRes epollOk
    have hr : SPSockTcp.dispatchReadEvent evts true wtp SPSockTcp.Config_markGlobal c
        recvRes epollOk =
        SPSockTcp.HandleRead true wtp SPSockTcp.Config_markGlobal
          (if evts &&& EPOLLRDHUP ≠ 0 then { c with peerClosed := true } else c)
          recvRes epollOk := rfl
    rw [hr]
    exact (hmain.2.2.1 hok (fun hpc => hsz hpc.2)).mpr (Or.inl rfl)
  · intro rdp c sendRes epollOk hs
    by_cases h2 : (c.isPeerClosed ∧ c.getReadBufferSize = 0)
    · have heq : SPSockTcp.HandleWrite rdp true SPSockTcp.Config_markGlobal c
          sendRes epollOk = ⟨false, c, false, false⟩ := by
        simp only [SPSockTcp.HandleWrite, if_pos h2]
      rw [heq] at hs
      exact absurd hs Bool.false_ne_true
    · by_cases hm1 : (c.commitWrite sendRes).1 = -1
      · have heq : SPSockTcp.HandleWrite rdp true SPSockTcp.Config_markGlobal c
            sendRes epollOk = ⟨false, (c.commitWrite sendRes).2, false, false⟩ := by
          simp only [SPSockTcp.HandleWrite, if_neg h2,
            if_neg (by decide : ¬(SPSockTcp.Config_markGlobal.writeMark = 0xffffffff)),
            if_pos hm1]
        rw [heq] at hs
        exact absurd hs Bool.false_ne_true
      · by_cases hle : (c.commitWrite sendRes).2.getWriteBufferSize ≤
            SPSockTcp.Config_markGlobal.writeMark
        · have hle0 : (c.commitWrite sendRes).2.getWriteBufferSize ≤ 0 := by
            simpa [SPSockTcp.Config_markGlobal] using hle
          omega
        · cases epollOk with
          | true =>
            have heq : SPSockTcp.HandleWrite rdp true SPSockTcp.Config_markGlobal c
                sendRes true = ⟨true, (c.commitWrite sendRes).2, false, true⟩ := by
              simp [SPSockTcp.HandleWrite, if_neg h2,
                if_neg (by decide : ¬(SPSockTcp.Config_markGlobal.writeMark = 0xffffffff)),
                if_neg hm1, if_neg hle, SOCKController.renableEvents]
            rw [heq] at hs
            exact absurd hs Bool.false_ne_true
          | false =>
            have heq : SPSockTcp.HandleWrite rdp true SPSockTcp.Config_markGlobal c
                sendRes false =
                ⟨false, { (c.commitWrite sendRes).2 with events := 0 },
                  false, false⟩ := by
              simp [SPSockTcp.HandleWrite, if_neg h2,
                if_neg (by decide : ¬(SPSockTcp.Config_markGlobal.writeMark = 0xffffffff)),
                if_neg hm1, if_neg hle, SOCKController.renableEvents]
            rw [heq] at hs
            exact absurd hs Bool.false_ne_true

/-- Witness for C10 at concrete inputs: a three-byte drain stages the read
callback under the default watermarks, and the write callback is staged only
with a fully drained write ring. -/
theorem C10_default_watermarks_witness :
    (SPSockTcp.dispatchReadEvent EPOLLIN true false SPSockTcp.Config_markGlobal
      (SOCKController.mk (SPBuffer.init 4) (SPBuffer.init 4) false EPOLLIN)
      [SysResult.sent 3] true).staged = true ∧
    ((SOCKController.mk (SPBuffer.init 4) (SPBuffer.init 4) false EPOLLIN).commitWrite
      []).2.getWriteBufferSize = 0 :=
  ⟨C10_default_watermarks.2.2.1 false
      (SOCKController.mk (SPBuffer.init 4) (SPBuffer.init 4) false EPOLLIN)
      EPOLLIN [SysResult.sent 3] true (by decide) (by decide),
   C10_default_watermarks.2.2.2 true
      (SOCKController.mk (SPBuffer.init 4) (SPBuffer.init 4) false EPOLLIN)
      [] true (by decide)⟩

/-- Every mask `SPSockTcp::EnableEvent` registers carries `EPOLLONESHOT`
(bit 30) — the reactor's one-shot re-arm discipline. -/
lemma EnableEvent_mask_oneshot (rd wr : Bool) :
    (SPSockTcp.EnableEvent_mask rd wr).testBit 30 = true := by
  cases rd <;> cases wr <;> decide

/-- The registration mask of `SPSockTcp::HandleConnect` carries
`EPOLLONESHOT` (bit 30) for every configured default event set. -/
lemma HandleConnect_mask_oneshot (defaultEvent : Nat) :
    (SPSockTcp.HandleConnect_mask defaultEvent).testBit 30 = true := by
  have h1 : (EPOLLERR ||| EPOLLHUP ||| EPOLLRDHUP ||| EPOLLONESHOT).testBit 30
      = true := by decide
  unfold SPSockTcp.HandleConnect_mask
  rw [Nat.testBit_or, h1, Bool.true_or]

/-- **C2** (code behaviour at the failing input): once the staging failure
latch is set, `UtilTaskTcp` `append` re-arms the connection through
`renableProc` and *still* stages/pushes its task — there is no early return
(src/SPTask.hpp:59-68, 98-107) — so a single delivery can leave the
connection armed while a task referencing it is in flight.  Concretely: the
single-mode `append` with `flag = false` and an accepting queue records the
same connection as both submitted and re-armed; the batched `append` with
`flag = false` likewise re-arms and stages; and in the per-connection
scheduling relation extended with this stage-and-re-arm transition
(`ConnStep.deliverStageRearm`), a state with two tasks in flight is
reachable — refuting the claimed at-most-one bound. -/
theorem C2_latched_append_breaks_oneshot :
    UtilTaskTcp_Single.append ⟨false⟩ 7 true =
      (⟨false⟩, ⟨[7], [7]⟩) ∧
    UtilTaskTcp_Multipe.append 4 []
        (UtilTaskTcp_Multipe.mk false 0 0 0 [0, 0, 0, 0]) 7 =
      (UtilTaskTcp_Multipe.mk false 0 1 1 [7, 0, 0, 0], ⟨[], [7]⟩) ∧
    ConnReachable ⟨false, 2⟩ ∧
    ¬((ConnSched.mk false 2).inflight ≤ 1) := by
  refine ⟨by decide, by decide, ?_, by decide⟩
  exact Relation.ReflTransGen.tail
    (Relation.ReflTransGen.single ConnStep.deliverStageRearm)
    ConnStep.deliverStage

/-- **C6** (code behaviour at the failing input): a staging buffer of
capacity 4 holding the wrapped batch `[12, 13, 10, 11]` (oldest first,
`back = front = 2`), whose first linear chunk `[12, 13]` is bulk-submitted
and only partially accepted (1 of 2): `commit` re-arms only connection 13 —
the failed tail of the *chunk* — then clears the whole buffer and sets the
failure latch, so the wrapped tasks 10 and 11 are neither submitted nor
re-armed, contradicting the claim that exactly the tasks that failed to
enqueue (13, 10 and 11) are re-armed. -/
theorem C6_partial_commit_drops_wrapped :
    UtilTaskTcp_Multipe.staged 4
      (UtilTaskTcp_Multipe.mk true 2 2 4 [10, 11, 12, 13]) = [12, 13, 10, 11] ∧
    UtilTaskTcp_Multipe.commit 4 [1]
      (UtilTaskTcp_Multipe.mk true 2 2 4 [10, 11, 12, 13]) ⟨[], []⟩ =
      (UtilTaskTcp_Multipe.mk false 2 2 0 [10, 11, 12, 13],
       CommitLog.mk [12] [13]) ∧
    (10 : Nat) ∉ ([12] : List Nat) ++ [13] ∧ (11 : Nat) ∉ ([12] : List Nat) ++ [13] := by
  decide

/-- **C4** (code behaviour at the failing input): with one connection (fd 5)
still in the live table when shutdown is initiated, `EventLoop` returns
after `pool.exit()` and `ExitIOEventLoop()` without invoking the user
close-callback — `Cleanup`, which would invoke it exactly once per remaining
connection, has no call site.  The second half evaluates `Cleanup` itself,
matching the claim's intent. -/
theorem C4_shutdown_missing_cleanup :
    (SPSockTcp.EventLoop_shutdownEpilogue ⟨[5], []⟩).closeCbInvoked.count 5 = 0 ∧
    (SPSockTcp.EventLoop_shutdownEpilogue ⟨[5], []⟩).connections = [5] ∧
    (SPSockTcp.Cleanup true ⟨[5], []⟩).closeCbInvoked.count 5 = 1 ∧
    (SPSockTcp.Cleanup true ⟨[5], []⟩).connections = [] := by
  decide

lemma count_middle (l1 l2 : List Nat) (i a : Nat) :
    (l1 ++ i :: l2).count a = (l1 ++ l2).count a + if a = i then 1 else 0 := by
  by_cases h : a = i
  · simp [List.count_append, List.count_cons, h]
    omega
  · simp [List.count_append, List.count_cons, h]

lemma PoolReachable_inv {m : Nat} {s : SPUdpBufferPool} (h : PoolReachable m s) :
    (∀ sl ∈ s.slabs, sl.refCount = s.freeList.count sl.id + s.checkedOut.count sl.id) ∧
    (∀ sl ∈ s.slabs, sl.id < s.nextId) ∧
    (∀ i ∈ s.freeList, i < s.nextId) ∧
    (∀ i ∈ s.checkedOut, i < s.nextId) ∧
    (s.slabs.map Slab.id).Nodup := by
  induction h with
  | refl => simp [SPUdpBufferPool.empty]
  | @tail t c _ hstep ih =>
    obtain ⟨ihcnt, ihslt, ihflt, ihclt, ihnd⟩ := ih
    cases hstep with
    | alloc num hnum =>
      refine ⟨?_, ?_, ?_, ?_, ?_⟩
      · intro sl hsl
        rcases List.mem_cons.mp hsl with hnew | hold
        · subst hnew
          have hfl0 : t.freeList.count t.nextId = 0 :=
            List.count_eq_zero.mpr (fun hm => by have := ihflt _ hm; omega)
          have hco0 : t.checkedOut.count t.nextId = 0 :=
            List.count_eq_zero.mpr (fun hm => by have := ihclt _ hm; omega)
          show num = (List.replicate num t.nextId ++ t.freeList).count t.nextId +
            t.checkedOut.count t.nextId
          rw [List.count_append, hfl0, hco0]
          simp [List.count_replicate]
        · have hrep0 : (List.replicate num t.nextId).count sl.id = 0 :=
            List.count_eq_zero.mpr
              (fun hm => by
                have h1 := List.eq_of_mem_replicate hm
                have h2 := ihslt sl hold
                omega)
          show sl.refCount = (List.replicate num t.nextId ++ t.freeList).count sl.id +
            t.checkedOut.count sl.id
          rw [List.count_append, hrep0]
          simpa using ihcnt sl hold
      · intro sl hsl
        rcases List.mem_cons.mp hsl with hnew | hold
        · subst hnew
          show t.nextId < t.nextId + 1
          omega
        · have := ihslt sl hold
          show sl.id < t.nextId + 1
          omega
      · intro i hi
        rcases List.mem_append.mp hi with hrep | hold
        · have := List.eq_of_mem_replicate hrep
          show i < t.nextId + 1
          omega
        · have := ihflt i hold
          show i < t.nextId + 1
          omega
      · intro i hi
        have := ihclt i hi
        show i < t.nextId + 1
        omega
      · show (t.nextId :: t.slabs.map Slab.id).Nodup
        exact List.nodup_cons.mpr
          ⟨fun hm => by
            obtain ⟨sl, hsl, hid⟩ := List.mem_map.mp hm
            have := ihslt sl hsl
            omega, ihnd⟩
    | get i rest hfl =>
      refine ⟨?_, ihslt, ?_, ?_, ihnd⟩
      · intro sl hsl
        have hold := ihcnt sl hsl
        rw [hfl] at hold
        show sl.refCount = rest.count sl.id + (i :: t.checkedOut).count sl.id
        rw [show (i :: rest) = [] ++ i :: rest from rfl] at hold
        rw [show (i :: t.checkedOut) = [] ++ i :: t.checkedOut from rfl]
        rw [count_middle] at hold
        rw [count_middle]
        simp only [List.nil_append] at hold ⊢
        omega
      · intro j hj
        exact ihflt j (by rw [hfl]; exact List.mem_cons_of_mem i hj)
      · intro j hj
        rcases List.mem_cons.mp hj with hji | hold
        · subst hji
          exact ihflt j (by rw [hfl]; exact List.mem_cons_self j rest)
        · exact ihclt j hold
    | freeRetain i pre post hco hlt =>
      refine ⟨?_, ihslt, ?_, ?_, ihnd⟩
      · intro sl hsl
        have hold := ihcnt sl hsl
        rw [hco, count_middle] at hold
        show sl.refCount = (i :: t.freeList).count sl.id + (pre ++ post).count sl.id
        rw [show (i :: t.freeList) = [] ++ i :: t.freeList from rfl, count_middle]
        simp only [List.nil_append]
        omega
      · intro j hj
        rcases List.mem_cons.mp hj with hji | hold
        · subst hji
          exact ihclt j
            (by rw [hco]; exact List.mem_append_right pre (List.mem_cons_self j post))
        · exact ihflt j hold
      · intro j hj
        refine ihclt j ?_
        rw [hco]
        rcases List.mem_append.mp hj with h1 | h2
        · exact List.mem_append_left _ h1
        · exact List.mem_append_right _ (List.mem_cons_of_mem i h2)
    | freeRetire i pre post sl spre spost hco hge hsl hid hpos =>
      have hndmid : sl.id ∉ (spre.map Slab.id ++ spost.map Slab.id) ∧
          (spre.map Slab.id ++ spost.map Slab.id).Nodup := by
        rw [hsl] at ihnd
        rw [List.map_append, List.map_cons] at ihnd
        exact List.nodup_cons.mp (List.nodup_middle.mp ihnd)
      refine ⟨?_, ?_, ihflt, ?_, ?_⟩
      · intro x hx
        rcases List.mem_append.mp hx with hxpre | hxmid
        · have hxold : x ∈ t.slabs := by
            rw [hsl]; exact List.mem_append_left _ hxpre
          have hold := ihcnt x hxold
          rw [hco, count_middle] at hold
          have hne : ¬(x.id = i) := by
            intro hxi
            exact hndmid.1 (List.mem_append_left _
              (List.mem_map.mpr ⟨x, hxpre, by omega⟩))
          rw [if_neg hne] at hold
          show x.refCount = t.freeList.count x.id + (pre ++ post).count x.id
          omega
        · rcases List.mem_cons.mp hxmid with hxsl | hxpost
          · have hslold : sl ∈ t.slabs := by
              rw [hsl]; exact List.mem_append_right _ (List.mem_cons_self sl spost)
            have hold := ihcnt sl hslold
            rw [hco, count_middle, if_pos hid] at hold
            subst hxsl
            show sl.refCount - 1 = t.freeList.count sl.id + (pre ++ post).count sl.id
            omega
          · have hxold : x ∈ t.slabs := by
              rw [hsl]
              exact List.mem_append_right _ (List.mem_cons_of_mem sl hxpost)
            have hold := ihcnt x hxold
            rw [hco, count_middle] at hold
            have hne : ¬(x.id = i) := by
              intro hxi
              exact hndmid.1 (List.mem_append_right _
                (List.mem_map.mpr ⟨x, hxpost, by omega⟩))
            rw [if_neg hne] at hold
            show x.refCount = t.freeList.count x.id + (pre ++ post).count x.id
            omega
      · intro x hx
        rcases List.mem_append.mp hx with hxpre | hxmid
        · exact ihslt x (by rw [hsl]; exact List.mem_append_left _ hxpre)
        · rcases List.mem_cons.mp hxmid with hxsl | hxpost
          · have hmem : sl ∈ t.slabs := by
              rw [hsl]
              exact List.mem_append_right _ (List.mem_cons_self sl spost)
            have h1 := ihslt sl hmem
            rw [hxsl]
            exact h1
          · exact ihslt x
              (by rw [hsl]; exact List.mem_append_right _ (List.mem_cons_of_mem sl hxpost))
      · intro j hj
        refine ihclt j ?_
        rw [hco]
        rcases List.mem_append.mp hj with h1 | h2
        · exact List.mem_append_left _ h1
        · exact List.mem_append_right _ (List.mem_cons_of_mem i h2)
      · show ((spre ++ { sl with refCount := sl.refCount - 1 } :: spost).map Slab.id).Nodup
        rw [List.map_append, List.map_cons]
        show (spre.map Slab.id ++ sl.id :: spost.map Slab.id).Nodup
        rw [hsl] at ihnd
        rwa [List.map_append, List.map_cons] at ihnd
    | freeRelease i pre post sl spre spost hco hge hsl hid hone =>
      have hndmid : sl.id ∉ (spre.map Slab.id ++ spost.map Slab.id) ∧
          (spre.map Slab.id ++ spost.map Slab.id).Nodup := by
        rw [hsl] at ihnd
        rw [List.map_append, List.map_cons] at ihnd
        exact List.nodup_cons.mp (List.nodup_middle.mp ihnd)
      refine ⟨?_, ?_, ihflt, ?_, ?_⟩
      · intro x hx
        have hxold : x ∈ t.slabs := by
          rw [hsl]
          rcases List.mem_append.mp hx with h1 | h2
          · exact List.mem_append_left _ h1
          · exact List.mem_append_right _ (List.mem_cons_of_mem sl h2)
        have hold := ihcnt x hxold
        rw [hco, count_middle] at hold
        have hne : ¬(x.id = i) := by
          intro hxi
          rcases List.mem_append.mp hx with h1 | h2
          · exact hndmid.1 (List.mem_append_left _
              (List.mem_map.mpr ⟨x, h1, by omega⟩))
          · exact hndmid.1 (List.mem_append_right _
              (List.mem_map.mpr ⟨x, h2, by omega⟩))
        rw [if_neg hne] at hold
        show x.refCount = t.freeList.count x.id + (pre ++ post).count x.id
        omega
      · intro x hx
        refine ihslt x ?_
        rw [hsl]
        rcases List.mem_append.mp hx with h1 | h2
        · exact List.mem_append_left _ h1
        · exact List.mem_append_right _ (List.mem_cons_of_mem sl h2)
      · intro j hj
        refine ihclt j ?_
        rw [hco]
        rcases List.mem_append.mp hj with h1 | h2
        · exact List.mem_append_left _ h1
        · exact List.mem_append_right _ (List.mem_cons_of_mem i h2)
      · show ((spre ++ spost).map Slab.id).Nodup
        rw [List.map_append]
        exact hndmid.2

/-- **C7** counterexample: the state reached from the empty pool by one slab
allocation of a single buffer.  `tryAlloc` initialises the slab header
refcount to the buffer count and pushes every buffer onto the free list
(src/SPBufferPool.hpp:276-289), so the live slab has `refCount = 1` while
the number of its buffers *not* on the free list is 0 — the claimed
invariant `refcount(slab) = buffers not on the free list` fails on a
reachable state (`GetBuffer` does not increment the refcount either;
the refcount only ever decreases, counting not-yet-retired buffers). -/
theorem C7_counterexample :
    PoolReachable 64 (SPUdpBufferPool.mk [Slab.mk 0 1 1] [0] 1 [] [] 1) ∧
    ¬ (SPUdpBufferPool.mk [Slab.mk 0 1 1] [0] 1 [] [] 1).claimedRefInv := by
  constructor
  · exact Relation.ReflTransGen.single
      (PoolStep.alloc SPUdpBufferPool.empty 1 (by decide))
  · decide

/-- **C7 (amended)**: in every reachable pool state, each live slab's
reference count equals the number of that slab's buffers *not yet retired* —
those on the free list plus those checked out; and a slab is removed (freed)
only by the `FreeBuffer` branch that decrements its reference count from 1
to 0, i.e. never while the count (before the final decrement) exceeds 1 and
never without that decrement reaching zero. -/
theorem C7_pool_refcount {m : Nat} {s : SPUdpBufferPool} (h : PoolReachable m s) :
    (∀ sl ∈ s.slabs,
      sl.refCount = s.freeList.count sl.id + s.checkedOut.count sl.id) ∧
    (∀ (s' : SPUdpBufferPool) (sl : Slab), PoolStep m s s' → sl ∈ s.slabs →
      sl.id ∉ s.freed → sl.id ∈ s'.freed → sl.refCount = 1) := by
  refine ⟨(PoolReachable_inv h).1, ?_⟩
  intro s' sl hstep hmem hnotin hin
  cases hstep with
  | alloc num hnum => exact absurd hin hnotin
  | get i rest hfl => exact absurd hin hnotin
  | freeRetain i pre post hco hlt => exact absurd hin hnotin
  | freeRetire i pre post slr spre spost hco hge hsl hid hpos =>
    exact absurd hin hnotin
  | freeRelease i pre post slr spre spost hco hge hsl hid hone =>
    rcases List.mem_cons.mp hin with heq | hold
    · have hndup := (PoolReachable_inv h).2.2.2.2
      have hslrmem : slr ∈ s.slabs := by
        rw [hsl]
        exact List.mem_append_right _ (List.mem_cons_self slr spost)
      have hxy : sl = slr :=
        List.inj_on_of_nodup_map hndup hmem hslrmem (by omega)
      rw [hxy]
      exact hone
    · exact absurd hold hnotin

/-- Witness for the amended C7 at the concrete one-slab reachable state. -/
theorem C7_pool_refcount_witness :
    (Slab.mk 0 1 1).refCount =
      (SPUdpBufferPool.mk [Slab.mk 0 1 1] [0] 1 [] [] 1).freeList.count
        (Slab.mk 0 1 1).id +
      (SPUdpBufferPool.mk [Slab.mk 0 1 1] [0] 1 [] [] 1).checkedOut.count
        (Slab.mk 0 1 1).id :=
  (C7_pool_refcount (m := 64)
      (Relation.ReflTransGen.single
        (PoolStep.alloc SPUdpBufferPool.empty 1 (by decide)))).1
    (Slab.mk 0 1 1) (by decide)

end Spsock
